import Mathlib

/-!
Verification of the SPSC queue family (busy-spin, wait-notify, tail-head,
counter-wait, lock-based variants) against its natural-language specification.

Each C++ queue class is shallowly embedded as a pure state type plus one Lean
function per member function.  Blocking operations are modelled by their
single-threaded (sequential) semantics: a call that would block forever in a
single-threaded run (no other thread can make the awaited condition true)
is `none`; a call that completes is `some` of its result and the new state.
`std::vector` storage is modelled as a total function `Nat → α` over slot
indices; the separately tracked "constructed element count" of each vector
records how many elements the constructor actually value-initialized
(`std::vector(n)` constructs `n` elements, `reserve(n)` constructs none).
-/

/-- An operation of the shared queue interface, for sequential traces. -/
inductive Op (α : Type) where
  | push : α → Op α
  | tryPush : α → Op α
  | pop : Op α
  | tryPop : Op α
  | close : Op α
deriving DecidableEq

/-- The member functions of a queue variant, as pure state transformers.
Blocking `push`/`pop` return `none` when the call diverges sequentially. -/
structure QueueImpl (σ α : Type) where
  tryPushFn : σ → α → Bool × σ
  pushFn : σ → α → Option (Bool × σ)
  tryPopFn : σ → Option α × σ
  popFn : σ → Option (Option α × σ)
  closeFn : σ → σ

/-- Run a sequential trace of operations.  Returns `none` if some blocking
call diverges, otherwise the final state, the list of items accepted by
`push`/`try_push` (in order), and the list of items returned by
`pop`/`try_pop` (in order). -/
def runOps (impl : QueueImpl σ α) : List (Op α) → σ → Option (σ × List α × List α)
  | [], q => some (q, [], [])
  | Op.push a :: rest, q =>
    match impl.pushFn q a with
    | none => none
    | some p =>
      match runOps impl rest p.2 with
      | none => none
      | some (qf, pushed, popped) =>
        some (qf, if p.1 then a :: pushed else pushed, popped)
  | Op.tryPush a :: rest, q =>
    match runOps impl rest (impl.tryPushFn q a).2 with
    | none => none
    | some (qf, pushed, popped) =>
      some (qf, if (impl.tryPushFn q a).1 then a :: pushed else pushed, popped)
  | Op.pop :: rest, q =>
    match impl.popFn q with
    | none => none
    | some p =>
      match runOps impl rest p.2 with
      | none => none
      | some (qf, pushed, popped) =>
        some (qf, pushed, match p.1 with | some a => a :: popped | none => popped)
  | Op.tryPop :: rest, q =>
    match runOps impl rest (impl.tryPopFn q).2 with
    | none => none
    | some (qf, pushed, popped) =>
      some (qf, pushed,
        match (impl.tryPopFn q).1 with | some a => a :: popped | none => popped)
  | Op.close :: rest, q => runOps impl rest (impl.closeFn q)

/-- State of the ring-buffer variants (`atomic_spin_spsc_queue`,
`atomic_wait_spsc_queue`, `atomic_tail_head_spsc_queue`): a buffer of
`capacity + 1` slots, producer-owned `tail_`, consumer-owned `head_`,
and the `closed_` flag. -/
structure RingState (α : Type) where
  capacity : Nat
  buffer : Nat → α
  head : Nat
  tail : Nat
  closed : Bool

/-- `buffer_size_ = capacity + 1`, as set by each ring-variant constructor. -/
def RingState.bufferSize (q : RingState α) : Nat := q.capacity + 1

namespace atomic_spin_spsc_queue

/-- Fresh queue state after `atomic_spin_spsc_queue(capacity)`:
`buffer_(buffer_size_)` value-initializes every slot, `head_ = tail_ = 0`,
`closed_ = false`. -/
def init (α : Type) [Inhabited α] (c : Nat) : RingState α :=
  { capacity := c, buffer := fun _ => default, head := 0, tail := 0, closed := false }

/-- Constructor: throws `std::invalid_argument` iff `capacity == 0`. -/
def construct (α : Type) [Inhabited α] (c : Nat) : Except String (RingState α) :=
  if c = 0 then Except.error "capacity must be > 0" else Except.ok (init α c)

/-- Number of elements value-initialized in `buffer_` by the constructor:
`buffer_(buffer_size_)` constructs `capacity + 1` elements. -/
def constructedSlots (c : Nat) : Nat := c + 1

/-- Lines 58-77: check `closed_`, compute `next = (t + 1) % buffer_size_`,
fail if `next == head_`, otherwise store at `tail_` and publish `next`. -/
def try_push (q : RingState α) (item : α) : Bool × RingState α :=
  if q.closed = true then (false, q)
  else if (q.tail + 1) % q.bufferSize = q.head then (false, q)
  else
    (true,
      { q with
        buffer := fun i => if i = q.tail then item else q.buffer i,
        tail := (q.tail + 1) % q.bufferSize })

/-- Lines 82-108, sequential semantics of the spinning loop: return false if
closed, succeed if not full, otherwise spin forever (no other thread). -/
def push (q : RingState α) (item : α) : Option (Bool × RingState α) :=
  if q.closed = true then some (false, q)
  else if (q.tail + 1) % q.bufferSize = q.head then none
  else
    some (true,
      { q with
        buffer := fun i => if i = q.tail then item else q.buffer i,
        tail := (q.tail + 1) % q.bufferSize })

/-- Lines 111-126: empty iff `head_ == tail_`; otherwise read the slot at
`head_` and publish `next`.  The `closed_` flag is never consulted. -/
def try_pop (q : RingState α) : Option α × RingState α :=
  if q.head = q.tail then (none, q)
  else (some (q.buffer q.head), { q with head := (q.head + 1) % q.bufferSize })

/-- Lines 129-156, sequential semantics of the spinning loop: pop if
non-empty, return `nullopt` if empty and closed, otherwise spin forever. -/
def pop (q : RingState α) : Option (Option α × RingState α) :=
  if q.head = q.tail then
    (if q.closed = true then some (none, q) else none)
  else some (some (q.buffer q.head), { q with head := (q.head + 1) % q.bufferSize })

/-- Lines 162-165: store `true` into `closed_`. -/
def close (q : RingState α) : RingState α := { q with closed := true }

/-- The public member functions declared by the class in the source. -/
def members : List String :=
  ["try_push", "push", "try_pop", "pop", "capacity", "close"]

/-- The five operations bundled for the sequential runner. -/
def impl (α : Type) : QueueImpl (RingState α) α :=
  { tryPushFn := try_push, pushFn := push, tryPopFn := try_pop, popFn := pop, closeFn := close }

end atomic_spin_spsc_queue

namespace atomic_wait_spsc_queue

/-- Fresh queue state after the `atomic_wait_spsc_queue` constructor
(`spsc_queue` in `atomic_wait_spsc_queue.hpp`). -/
def init (α : Type) [Inhabited α] (c : Nat) : RingState α :=
  { capacity := c, buffer := fun _ => default, head := 0, tail := 0, closed := false }

/-- Constructor: throws `std::invalid_argument` iff `capacity == 0`. -/
def construct (α : Type) [Inhabited α] (c : Nat) : Except String (RingState α) :=
  if c = 0 then Except.error "capacity must be > 0" else Except.ok (init α c)

/-- `buffer_(buffer_size_)` value-initializes `capacity + 1` elements. -/
def constructedSlots (c : Nat) : Nat := c + 1

/-- Lines 62-83: same index logic as the spin variant; the trailing
`tail_.notify_one()` has no sequential state effect. -/
def try_push (q : RingState α) (item : α) : Bool × RingState α :=
  if q.closed = true then (false, q)
  else if (q.tail + 1) % q.bufferSize = q.head then (false, q)
  else
    (true,
      { q with
        buffer := fun i => if i = q.tail then item else q.buffer i,
        tail := (q.tail + 1) % q.bufferSize })

/-- Lines 88-114, sequential semantics: false if closed, succeed if not
full, otherwise `head_.wait(h)` never returns (no other thread). -/
def push (q : RingState α) (item : α) : Option (Bool × RingState α) :=
  if q.closed = true then some (false, q)
  else if (q.tail + 1) % q.bufferSize = q.head then none
  else
    some (true,
      { q with
        buffer := fun i => if i = q.tail then item else q.buffer i,
        tail := (q.tail + 1) % q.bufferSize })

/-- Lines 117-134: empty iff `head_ == tail_`; `closed_` never consulted. -/
def try_pop (q : RingState α) : Option α × RingState α :=
  if q.head = q.tail then (none, q)
  else (some (q.buffer q.head), { q with head := (q.head + 1) % q.bufferSize })

/-- Lines 137-164, sequential semantics: pop if non-empty, `nullopt` if
empty and closed, otherwise `tail_.wait(t)` never returns. -/
def pop (q : RingState α) : Option (Option α × RingState α) :=
  if q.head = q.tail then
    (if q.closed = true then some (none, q) else none)
  else some (some (q.buffer q.head), { q with head := (q.head + 1) % q.bufferSize })

/-- Lines 170-176: store `true` into `closed_` (the notifications have no
sequential state effect). -/
def close (q : RingState α) : RingState α := { q with closed := true }

/-- The public member functions declared by the class in the source. -/
def members : List String :=
  ["try_push", "push", "try_pop", "pop", "capacity", "close"]

/-- The five operations bundled for the sequential runner. -/
def impl (α : Type) : QueueImpl (RingState α) α :=
  { tryPushFn := try_push, pushFn := push, tryPopFn := try_pop, popFn := pop, closeFn := close }

end atomic_wait_spsc_queue

namespace atomic_tail_head_spsc_queue

/-- Fresh queue state after the `atomic_tail_head_spsc_queue` constructor
(`spsc_queue` in `atomic_tail_head_spsc_queue.hpp`).  The slot contents are
modelled as default values even though `reserve` constructs none
(see `constructedSlots`). -/
def init (α : Type) [Inhabited α] (c : Nat) : RingState α :=
  { capacity := c, buffer := fun _ => default, head := 0, tail := 0, closed := false }

/-- Constructor: throws `std::invalid_argument` iff `capacity == 0`. -/
def construct (α : Type) [Inhabited α] (c : Nat) : Except String (RingState α) :=
  if c = 0 then Except.error "capacity must be > 0" else Except.ok (init α c)

/-- The constructor calls `buffer_.reserve(buffer_size_)`, which allocates
storage but value-initializes no element: the vector size stays 0. -/
def constructedSlots (_c : Nat) : Nat := 0

/-- Lines 37-60: same index logic as the spin variant. -/
def try_push (q : RingState α) (item : α) : Bool × RingState α :=
  if q.closed = true then (false, q)
  else if (q.tail + 1) % q.bufferSize = q.head then (false, q)
  else
    (true,
      { q with
        buffer := fun i => if i = q.tail then item else q.buffer i,
        tail := (q.tail + 1) % q.bufferSize })

/-- Lines 65-82, sequential semantics: false if closed, succeed if not
full, otherwise the tight loop never exits. -/
def push (q : RingState α) (item : α) : Option (Bool × RingState α) :=
  if q.closed = true then some (false, q)
  else if (q.tail + 1) % q.bufferSize = q.head then none
  else
    some (true,
      { q with
        buffer := fun i => if i = q.tail then item else q.buffer i,
        tail := (q.tail + 1) % q.bufferSize })

/-- Lines 85-103: empty iff `head_ == tail_`; `closed_` never consulted. -/
def try_pop (q : RingState α) : Option α × RingState α :=
  if q.head = q.tail then (none, q)
  else (some (q.buffer q.head), { q with head := (q.head + 1) % q.bufferSize })

/-- Lines 106-126, sequential semantics: pop if non-empty, `nullopt` if
empty and closed, otherwise the loop never exits. -/
def pop (q : RingState α) : Option (Option α × RingState α) :=
  if q.head = q.tail then
    (if q.closed = true then some (none, q) else none)
  else some (some (q.buffer q.head), { q with head := (q.head + 1) % q.bufferSize })

/-- Lines 132-140: `closed_.exchange(true)`; sets `closed_` whether or not
it was already set (the notifications have no sequential state effect). -/
def close (q : RingState α) : RingState α :=
  if q.closed = true then q else { q with closed := true }

/-- The public member functions declared by the class in the source. -/
def members : List String :=
  ["try_push", "push", "try_pop", "pop", "capacity", "close"]

/-- The five operations bundled for the sequential runner. -/
def impl (α : Type) : QueueImpl (RingState α) α :=
  { tryPushFn := try_push, pushFn := push, tryPopFn := try_pop, popFn := pop, closeFn := close }

end atomic_tail_head_spsc_queue

/-- State of `spsc_queue` in `atomic_counter_spsc_queue.hpp`: a buffer of
`capacity` slots, a shared atomic occupancy counter `size_`, thread-private
`head_`/`tail_` wrapping modulo `capacity_`, and the `closed_` flag. -/
structure CounterState (α : Type) where
  capacity : Nat
  buffer : Nat → α
  head : Nat
  tail : Nat
  size : Nat
  closed : Bool

namespace atomic_counter_spsc_queue

/-- Fresh queue state after the constructor: `buffer_.reserve(capacity_)`,
all indices and the counter zero.  Slot contents are modelled as default
values even though `reserve` constructs none (see `constructedSlots`). -/
def init (α : Type) [Inhabited α] (c : Nat) : CounterState α :=
  { capacity := c, buffer := fun _ => default, head := 0, tail := 0, size := 0, closed := false }

/-- Constructor: throws `std::invalid_argument` iff `capacity == 0`. -/
def construct (α : Type) [Inhabited α] (c : Nat) : Except String (CounterState α) :=
  if c = 0 then Except.error "capacity must be > 0" else Except.ok (init α c)

/-- The constructor calls `buffer_.reserve(capacity_)`, which allocates
storage but value-initializes no element: the vector size stays 0. -/
def constructedSlots (_c : Nat) : Nat := 0

/-- The ring modulus used by this variant: indices wrap modulo `capacity_`
(not `capacity_ + 1`), and `reserve` requests `capacity_` slots. -/
def bufferSlots (c : Nat) : Nat := c

/-- Lines 37-52: fail if `size() >= capacity_ || closed_`; otherwise store
at `tail_`, advance `tail_` modulo `capacity_`, increment `size_`. -/
def try_push (q : CounterState α) (item : α) : Bool × CounterState α :=
  if q.capacity ≤ q.size ∨ q.closed = true then (false, q)
  else
    (true,
      { q with
        buffer := (fun i => if i = q.tail then item else q.buffer i),
        tail := (q.tail + 1) % q.capacity,
        size := q.size + 1 })

/-- Lines 57-90, sequential semantics: false if closed; if full, the
`size_.wait(s)` loop never exits (only a pop or close changes `size_`);
otherwise store and increment as in `try_push`. -/
def push (q : CounterState α) (item : α) : Option (Bool × CounterState α) :=
  if q.closed = true then some (false, q)
  else if q.capacity ≤ q.size then none
  else
    some (true,
      { q with
        buffer := (fun i => if i = q.tail then item else q.buffer i),
        tail := (q.tail + 1) % q.capacity,
        size := q.size + 1 })

/-- Lines 93-108: fail if `size() == 0 || closed_` (note: a closed queue
returns `nullopt` even when items remain buffered); otherwise read the slot
at `head_`, advance `head_` modulo `capacity_`, decrement `size_`. -/
def try_pop (q : CounterState α) : Option α × CounterState α :=
  if q.size = 0 ∨ q.closed = true then (none, q)
  else (some (q.buffer q.head),
        { q with head := (q.head + 1) % q.capacity, size := q.size - 1 })

/-- Lines 111-144, sequential semantics: `nullopt` immediately if closed
(before looking at the buffer); if empty and open, the `size_.wait(s)` loop
never exits; otherwise pop as in `try_pop`. -/
def pop (q : CounterState α) : Option (Option α × CounterState α) :=
  if q.closed = true then some (none, q)
  else if q.size = 0 then none
  else some (some (q.buffer q.head),
             { q with head := (q.head + 1) % q.capacity, size := q.size - 1 })

/-- Lines 156-161: set `closed_` and reset `size_` to 0 (`size_.store(0)`),
then broadcast.  The counter reset discards the record of buffered items. -/
def close (q : CounterState α) : CounterState α :=
  { q with closed := true, size := 0 }

/-- The public member functions declared by the class in the source. -/
def members : List String :=
  ["try_push", "push", "try_pop", "pop", "size", "capacity", "close"]

/-- The five operations bundled for the sequential runner. -/
def impl (α : Type) : QueueImpl (CounterState α) α :=
  { tryPushFn := try_push, pushFn := push, tryPopFn := try_pop, popFn := pop, closeFn := close }

end atomic_counter_spsc_queue

/-- State of `spsc_queue` in `simple_spsc_queue.hpp` (lock-based): a
`std::deque` guarded by a mutex, plus the `closed_` flag.  The mutex and
condition variables have no sequential state content. -/
structure SimpleState (α : Type) where
  capacity : Nat
  q : List α
  closed : Bool

namespace simple_spsc_queue

/-- Fresh queue state after the constructor: empty deque, open. -/
def init (α : Type) (c : Nat) : SimpleState α :=
  { capacity := c, q := [], closed := false }

/-- Constructor: throws `std::invalid_argument` iff `capacity == 0`. -/
def construct (α : Type) (c : Nat) : Except String (SimpleState α) :=
  if c = 0 then Except.error "capacity must be > 0" else Except.ok (init α c)

/-- Lines 107-118 (`locked_push`): fail if `q_.size() >= capacity_ ||
closed_`; otherwise `push_back`. -/
def locked_push (s : SimpleState α) (item : α) : Bool × SimpleState α :=
  if s.capacity ≤ s.q.length ∨ s.closed = true then (false, s)
  else (true, { s with q := s.q ++ [item] })

/-- Lines 39-42: `try_push` takes the lock and calls `locked_push`. -/
def try_push (s : SimpleState α) (item : α) : Bool × SimpleState α :=
  locked_push s item

/-- Lines 47-53, sequential semantics: the condition-variable wait on
`closed_ || q_.size() < capacity_` never returns when the queue is open and
full (no other thread); otherwise `locked_push` runs. -/
def push (s : SimpleState α) (item : α) : Option (Bool × SimpleState α) :=
  if s.closed = false ∧ s.capacity ≤ s.q.length then none
  else some (locked_push s item)

/-- Lines 120-132 (`locked_pop`): `nullopt` if the deque is empty
(`closed_` never consulted); otherwise take the front element. -/
def locked_pop (s : SimpleState α) : Option α × SimpleState α :=
  match s.q with
  | [] => (none, s)
  | x :: rest => (some x, { s with q := rest })

/-- Lines 56-59: `try_pop` takes the lock and calls `locked_pop`. -/
def try_pop (s : SimpleState α) : Option α × SimpleState α :=
  locked_pop s

/-- Lines 62-68, sequential semantics: the condition-variable wait on
`closed_ || !q_.empty()` never returns when the queue is open and empty;
otherwise `locked_pop` runs. -/
def pop (s : SimpleState α) : Option (Option α × SimpleState α) :=
  if s.closed = false ∧ s.q.length = 0 then none
  else some (locked_pop s)

/-- Lines 81-89: set `closed_` under the lock, then notify both condition
variables. -/
def close (s : SimpleState α) : SimpleState α := { s with closed := true }

/-- The public member functions declared by the class in the source. -/
def members : List String :=
  ["try_push", "push", "try_pop", "pop", "size", "capacity", "close"]

/-- The five operations bundled for the sequential runner. -/
def impl (α : Type) : QueueImpl (SimpleState α) α :=
  { tryPushFn := try_push, pushFn := push, tryPopFn := try_pop, popFn := pop, closeFn := close }

end simple_spsc_queue

/-- Number of live items a ring-variant state records:
`(tail - head) mod buffer_size`, written without integer subtraction. -/
def ringCount (q : RingState α) : Nat :=
  (q.tail + q.bufferSize - q.head) % q.bufferSize

/-- The live items of a ring-variant state, oldest first: the slots from
`head_` (inclusive) to `tail_` (exclusive), wrapping modulo `buffer_size_`. -/
def ringAbs (q : RingState α) : List α :=
  (List.range (ringCount q)).map (fun i => q.buffer ((q.head + i) % q.bufferSize))

/-- Structural invariant of the ring variants: fixed capacity, both indices
within the buffer. -/
def ringInv (c : Nat) (q : RingState α) : Prop :=
  q.capacity = c ∧ q.head < q.bufferSize ∧ q.tail < q.bufferSize

/-- The live items of a counter-variant state, oldest first: `size_` slots
starting at `head_`, wrapping modulo `capacity_`. -/
def counterAbs (q : CounterState α) : List α :=
  (List.range q.size).map (fun i => q.buffer ((q.head + i) % q.capacity))

/-- Structural invariant of the counter variant while the queue is used
without `close`: positive fixed capacity, occupancy within capacity,
`head_` in range, and `tail_` displaced from `head_` by exactly `size_`. -/
def counterInv (c : Nat) (q : CounterState α) : Prop :=
  q.capacity = c ∧ 0 < q.capacity ∧ q.size ≤ q.capacity ∧ q.head < q.capacity ∧
    q.tail = (q.head + q.size) % q.capacity

/-- Invariant of the lock-based variant: fixed capacity, deque within
capacity. -/
def simpleInv (c : Nat) (q : SimpleState α) : Prop :=
  q.capacity = c ∧ q.q.length ≤ c

/-- Occupancy invariant of the counter-wait variant when `close` is allowed
in the trace: the ghost `n` counts live (pushed but not yet popped) items;
while the queue is open, `size_` agrees with `n`; once closed, the state is
frozen with `size_` reset to zero. -/
def counterClosedInv (c : Nat) (q : CounterState α) (n : Nat) : Prop :=
  q.capacity = c ∧ 0 < q.capacity ∧ n ≤ q.capacity ∧
    (q.closed = false → q.size = n) ∧ (q.closed = true → q.size = 0)

/-- The sequential behavioral contract an implementation must satisfy with
respect to an invariant `inv` and abstraction `abs` for the FIFO argument:
every completing operation appends accepted items at the back, removes
returned items at the front, and preserves `inv`. -/
structure SeqSpec (impl : QueueImpl σ α) (inv : σ → Prop) (abs : σ → List α) : Prop where
  tryPush_inv : ∀ q a, inv q → inv (impl.tryPushFn q a).2
  tryPush_abs : ∀ q a, inv q →
    abs (impl.tryPushFn q a).2 =
      abs q ++ (if (impl.tryPushFn q a).1 then [a] else [])
  push_inv : ∀ q a p, inv q → impl.pushFn q a = some p → inv p.2
  push_abs : ∀ q a p, inv q → impl.pushFn q a = some p →
    abs p.2 = abs q ++ (if p.1 then [a] else [])
  tryPop_inv : ∀ q, inv q → inv (impl.tryPopFn q).2
  tryPop_abs : ∀ q, inv q →
    abs q = (match (impl.tryPopFn q).1 with | some a => [a] | none => []) ++
      abs (impl.tryPopFn q).2
  pop_inv : ∀ q p, inv q → impl.popFn q = some p → inv p.2
  pop_abs : ∀ q p, inv q → impl.popFn q = some p →
    abs q = (match p.1 with | some a => [a] | none => []) ++ abs p.2

/-- A number below twice the modulus reduces by at most one subtraction. -/
theorem mod_small_cases (a bs : Nat) (ha : a < 2 * bs) :
    a % bs = if a < bs then a else a - bs := by
  rcases Nat.lt_or_ge a bs with h | h
  · rw [if_pos h, Nat.mod_eq_of_lt h]
  · rw [if_neg (Nat.not_lt.mpr h), Nat.mod_eq_sub_mod h, Nat.mod_eq_of_lt (by omega)]

/-- Closed form of the ring occupancy `(t + bs - h) % bs` for in-range
indices. -/
theorem ring_dist_eq (h t bs : Nat) (hh : h < bs) (ht : t < bs) :
    (t + bs - h) % bs = if h ≤ t then t - h else t + bs - h := by
  rcases le_or_lt h t with hle | hlt
  · rw [if_pos hle]
    have he : t + bs - h = (t - h) + bs := by omega
    rw [he, Nat.add_mod_right, Nat.mod_eq_of_lt (by omega)]
  · rw [if_neg (by omega), Nat.mod_eq_of_lt (by omega)]

/-- Advancing the tail of a non-full ring increases the occupancy by one. -/
theorem ring_push_count (h t bs : Nat) (hh : h < bs) (ht : t < bs)
    (hne : (t + 1) % bs ≠ h) :
    ((t + 1) % bs + bs - h) % bs = (t + bs - h) % bs + 1 := by
  have hn : (t + 1) % bs = if t + 1 < bs then t + 1 else 0 := by
    rcases Nat.lt_or_ge (t + 1) bs with h1 | h1
    · rw [if_pos h1, Nat.mod_eq_of_lt h1]
    · have he : t + 1 = bs := by omega
      rw [if_neg (by omega), he, Nat.mod_self]
  rw [hn] at hne ⊢
  rw [ring_dist_eq h t bs hh ht]
  by_cases h1 : t + 1 < bs
  · rw [if_pos h1] at hne ⊢
    rw [ring_dist_eq h (t + 1) bs hh h1]
    split_ifs <;> omega
  · rw [if_neg h1] at hne ⊢
    rw [ring_dist_eq h 0 bs hh (by omega)]
    split_ifs <;> omega

/-- The slot one past the live region is exactly the tail slot. -/
theorem ring_slot_top (h t bs : Nat) (hh : h < bs) (ht : t < bs) :
    (h + (t + bs - h) % bs) % bs = t := by
  rw [ring_dist_eq h t bs hh ht]
  rcases le_or_lt h t with hle | hlt
  · rw [if_pos hle]
    have he : h + (t - h) = t := by omega
    rw [he, Nat.mod_eq_of_lt ht]
  · rw [if_neg (by omega)]
    have he : h + (t + bs - h) = t + bs := by omega
    rw [he, Nat.add_mod_right, Nat.mod_eq_of_lt ht]

/-- Slots inside the live region are distinct from the tail slot. -/
theorem ring_slot_ne (h t bs i : Nat) (hh : h < bs) (ht : t < bs)
    (hi : i < (t + bs - h) % bs) : (h + i) % bs ≠ t := by
  rw [ring_dist_eq h t bs hh ht] at hi
  have h2 : (h + i) % bs = if h + i < bs then h + i else h + i - bs :=
    mod_small_cases _ _ (by split_ifs at hi <;> omega)
  rw [h2]
  split_ifs at hi ⊢ <;> omega

/-- Advancing the head of a non-empty ring decreases the occupancy by one. -/
theorem ring_pop_count (h t bs : Nat) (hh : h < bs) (ht : t < bs)
    (hne : h ≠ t) :
    (t + bs - (h + 1) % bs) % bs + 1 = (t + bs - h) % bs := by
  have hn : (h + 1) % bs = if h + 1 < bs then h + 1 else 0 := by
    rcases Nat.lt_or_ge (h + 1) bs with h1 | h1
    · rw [if_pos h1, Nat.mod_eq_of_lt h1]
    · have he : h + 1 = bs := by omega
      rw [if_neg (by omega), he, Nat.mod_self]
  rw [hn, ring_dist_eq h t bs hh ht]
  by_cases h1 : h + 1 < bs
  · rw [if_pos h1, ring_dist_eq (h + 1) t bs h1 ht]
    split_ifs <;> omega
  · rw [if_neg h1, ring_dist_eq 0 t bs (by omega) ht]
    split_ifs <;> omega

/-- Reading from the advanced head is reading the successor slot. -/
theorem ring_slot_shift (h i bs : Nat) :
    ((h + 1) % bs + i) % bs = (h + (i + 1)) % bs := by
  rw [Nat.mod_add_mod]
  congr 1
  omega

/-- Distinct in-range offsets from the same base land in distinct slots. -/
theorem counter_slot_ne (h s i c : Nat) (hh : h < c) (hs : s < c) (hi : i < s) :
    (h + i) % c ≠ (h + s) % c := by
  have h1 : (h + i) % c = if h + i < c then h + i else h + i - c :=
    mod_small_cases _ _ (by omega)
  have h2 : (h + s) % c = if h + s < c then h + s else h + s - c :=
    mod_small_cases _ _ (by omega)
  rw [h1, h2]
  split_ifs <;> omega

/-- Soundness of the sequential runner: if every executed `close` preserves
the abstraction, any completing trace satisfies the FIFO accounting
equation `abs q ++ pushed = popped ++ abs final` and preserves the
invariant. -/
theorem runOps_spec {σ α : Type} {impl : QueueImpl σ α} {inv : σ → Prop}
    {abs : σ → List α} (hs : SeqSpec impl inv abs) (ops : List (Op α)) :
    ∀ (q : σ) (r : σ × List α × List α),
      (∀ op ∈ ops, op = Op.close →
        ∀ s, inv s → inv (impl.closeFn s) ∧ abs (impl.closeFn s) = abs s) →
      inv q → runOps impl ops q = some r →
      inv r.1 ∧ abs q ++ r.2.1 = r.2.2 ++ abs r.1 := by
  induction ops with
  | nil =>
    intro q r _ hq hr
    simp only [runOps, Option.some.injEq] at hr
    subst hr
    exact ⟨hq, by simp⟩
  | cons op rest ih =>
    intro q r hcl hq hr
    have hclr : ∀ op ∈ rest, op = Op.close →
        ∀ s, inv s → inv (impl.closeFn s) ∧ abs (impl.closeFn s) = abs s :=
      fun o ho he => hcl o (List.mem_cons_of_mem _ ho) he
    cases op with
    | push a =>
      simp only [runOps] at hr
      split at hr
      · simp at hr
      · rename_i p hp
        split at hr
        · simp at hr
        · rename_i qf pushed popped hrest
          simp only [Option.some.injEq] at hr
          subst hr
          have h2 := hs.push_abs q a p hq hp
          have hrec := ih p.2 (qf, pushed, popped) hclr (hs.push_inv q a p hq hp) hrest
          refine ⟨hrec.1, ?_⟩
          have h3 := hrec.2
          cases hok : p.1
          · rw [hok] at h2
            simp only [if_neg Bool.false_ne_true, List.append_nil] at h2 ⊢
            rw [← h2]
            exact h3
          · rw [hok] at h2
            simp only [if_pos rfl] at h2 ⊢
            rw [h2] at h3
            simpa [List.append_assoc] using h3
    | tryPush a =>
      simp only [runOps] at hr
      split at hr
      · simp at hr
      · rename_i qf pushed popped hrest
        simp only [Option.some.injEq] at hr
        subst hr
        have h2 := hs.tryPush_abs q a hq
        have hrec := ih (impl.tryPushFn q a).2 (qf, pushed, popped) hclr
          (hs.tryPush_inv q a hq) hrest
        refine ⟨hrec.1, ?_⟩
        have h3 := hrec.2
        cases hok : (impl.tryPushFn q a).1
        · rw [hok] at h2
          simp only [if_neg Bool.false_ne_true, List.append_nil] at h2 ⊢
          rw [← h2]
          exact h3
        · rw [hok] at h2
          simp only [if_pos rfl] at h2 ⊢
          rw [h2] at h3
          simpa [List.append_assoc] using h3
    | pop =>
      simp only [runOps] at hr
      split at hr
      · simp at hr
      · rename_i p hp
        split at hr
        · simp at hr
        · rename_i qf pushed popped hrest
          simp only [Option.some.injEq] at hr
          subst hr
          have h2 := hs.pop_abs q p hq hp
          have hrec := ih p.2 (qf, pushed, popped) hclr (hs.pop_inv q p hq hp) hrest
          refine ⟨hrec.1, ?_⟩
          have h3 := hrec.2
          cases hv : p.1
          · rw [hv] at h2
            simp only [List.nil_append] at h2
            rw [h2]
            exact h3
          · rename_i b
            rw [hv] at h2
            simp only [List.cons_append, List.nil_append] at h2 ⊢
            rw [h2, List.cons_append, h3]
    | tryPop =>
      simp only [runOps] at hr
      split at hr
      · simp at hr
      · rename_i qf pushed popped hrest
        simp only [Option.some.injEq] at hr
        subst hr
        have h2 := hs.tryPop_abs q hq
        have hrec := ih (impl.tryPopFn q).2 (qf, pushed, popped) hclr
          (hs.tryPop_inv q hq) hrest
        refine ⟨hrec.1, ?_⟩
        have h3 := hrec.2
        cases hv : (impl.tryPopFn q).1
        · rw [hv] at h2
          simp only [List.nil_append] at h2
          rw [h2]
          exact h3
        · rename_i b
          rw [hv] at h2
          simp only [List.cons_append, List.nil_append] at h2 ⊢
          rw [h2, List.cons_append, h3]
    | close =>
      simp only [runOps] at hr
      have hc := hcl Op.close (List.mem_cons_self _ _) rfl q hq
      have hrec := ih (impl.closeFn q) r hclr hc.1 hr
      refine ⟨hrec.1, ?_⟩
      rw [← hc.2]
      exact hrec.2

/-- Pushing into a non-full ring appends the item to the live list. -/
theorem ringAbs_push_eq (q : RingState α) (a : α)
    (hh : q.head < q.bufferSize) (ht : q.tail < q.bufferSize)
    (hne : (q.tail + 1) % q.bufferSize ≠ q.head) :
    ringAbs
      { q with
        buffer := fun i => if i = q.tail then a else q.buffer i,
        tail := (q.tail + 1) % q.bufferSize } = ringAbs q ++ [a] := by
  have hcnt : ringCount
      { q with
        buffer := fun i => if i = q.tail then a else q.buffer i,
        tail := (q.tail + 1) % q.bufferSize } = ringCount q + 1 :=
    ring_push_count q.head q.tail q.bufferSize hh ht hne
  simp only [ringAbs]
  rw [hcnt, List.range_succ, List.map_append]
  congr 1
  · apply List.map_congr_left
    intro i hi
    rw [List.mem_range] at hi
    have hne2 : (q.head + i) % q.bufferSize ≠ q.tail :=
      ring_slot_ne q.head q.tail q.bufferSize i hh ht hi
    show (if (q.head + i) % q.bufferSize = q.tail then a
          else q.buffer ((q.head + i) % q.bufferSize)) = _
    rw [if_neg hne2]
  · have htop : (q.head + ringCount q) % q.bufferSize = q.tail :=
      ring_slot_top q.head q.tail q.bufferSize hh ht
    show [if (q.head + ringCount q) % q.bufferSize = q.tail then a
          else q.buffer ((q.head + ringCount q) % q.bufferSize)] = [a]
    rw [if_pos htop]

/-- Popping from a non-empty ring removes the item at the head slot. -/
theorem ringAbs_pop_eq (q : RingState α)
    (hh : q.head < q.bufferSize) (ht : q.tail < q.bufferSize)
    (hne : q.head ≠ q.tail) :
    ringAbs q =
      q.buffer q.head :: ringAbs { q with head := (q.head + 1) % q.bufferSize } := by
  have hcnt : ringCount { q with head := (q.head + 1) % q.bufferSize } + 1 = ringCount q :=
    ring_pop_count q.head q.tail q.bufferSize hh ht hne
  simp only [ringAbs]
  rw [← hcnt, List.range_succ_eq_map, List.map_cons, List.map_map]
  congr 1
  · show q.buffer ((q.head + 0) % q.bufferSize) = q.buffer q.head
    rw [Nat.add_zero, Nat.mod_eq_of_lt hh]
  · apply List.map_congr_left
    intro i hi
    show q.buffer ((q.head + (i + 1)) % q.bufferSize) =
      q.buffer (((q.head + 1) % q.bufferSize + i) % q.bufferSize)
    rw [ring_slot_shift]

/-- The spin variant preserves the ring invariant and acts on the live
list as a FIFO queue. -/
theorem spin_seqSpec (α : Type) (c : Nat) :
    SeqSpec (atomic_spin_spsc_queue.impl α) (ringInv c) ringAbs := by
  have hbs : ∀ q : RingState α, 0 < q.bufferSize := fun q => Nat.succ_pos _
  constructor
  case tryPush_inv =>
    intro q a hq
    obtain ⟨hc, hh, ht⟩ := hq
    show ringInv c (atomic_spin_spsc_queue.try_push q a).2
    unfold atomic_spin_spsc_queue.try_push
    by_cases h1 : q.closed = true
    · rw [if_pos h1]; exact ⟨hc, hh, ht⟩
    · rw [if_neg h1]
      by_cases h2 : (q.tail + 1) % q.bufferSize = q.head
      · rw [if_pos h2]; exact ⟨hc, hh, ht⟩
      · rw [if_neg h2]
        exact ⟨hc, hh, Nat.mod_lt _ (hbs q)⟩
  case tryPush_abs =>
    intro q a hq
    obtain ⟨hc, hh, ht⟩ := hq
    show ringAbs (atomic_spin_spsc_queue.try_push q a).2 =
      ringAbs q ++ (if (atomic_spin_spsc_queue.try_push q a).1 then [a] else [])
    unfold atomic_spin_spsc_queue.try_push
    by_cases h1 : q.closed = true
    · rw [if_pos h1]; simp
    · rw [if_neg h1]
      by_cases h2 : (q.tail + 1) % q.bufferSize = q.head
      · rw [if_pos h2]; simp
      · rw [if_neg h2]
        simp only [if_pos rfl]
        exact ringAbs_push_eq q a hh ht h2
  case push_inv =>
    intro q a p hq hp
    obtain ⟨hc, hh, ht⟩ := hq
    simp only [atomic_spin_spsc_queue.impl] at hp
    unfold atomic_spin_spsc_queue.push at hp
    by_cases h1 : q.closed = true
    · rw [if_pos h1] at hp
      simp only [Option.some.injEq] at hp
      rw [← hp]
      exact ⟨hc, hh, ht⟩
    · rw [if_neg h1] at hp
      by_cases h2 : (q.tail + 1) % q.bufferSize = q.head
      · rw [if_pos h2] at hp; exact absurd hp (by simp)
      · rw [if_neg h2] at hp
        simp only [Option.some.injEq] at hp
        rw [← hp]
        exact ⟨hc, hh, Nat.mod_lt _ (hbs q)⟩
  case push_abs =>
    intro q a p hq hp
    obtain ⟨hc, hh, ht⟩ := hq
    simp only [atomic_spin_spsc_queue.impl] at hp
    unfold atomic_spin_spsc_queue.push at hp
    by_cases h1 : q.closed = true
    · rw [if_pos h1] at hp
      simp only [Option.some.injEq] at hp
      rw [← hp]
      simp
    · rw [if_neg h1] at hp
      by_cases h2 : (q.tail + 1) % q.bufferSize = q.head
      · rw [if_pos h2] at hp; exact absurd hp (by simp)
      · rw [if_neg h2] at hp
        simp only [Option.some.injEq] at hp
        rw [← hp]
        simp only [if_pos rfl]
        exact ringAbs_push_eq q a hh ht h2
  case tryPop_inv =>
    intro q hq
    obtain ⟨hc, hh, ht⟩ := hq
    show ringInv c (atomic_spin_spsc_queue.try_pop q).2
    unfold atomic_spin_spsc_queue.try_pop
    by_cases h1 : q.head = q.tail
    · rw [if_pos h1]; exact ⟨hc, hh, ht⟩
    · rw [if_neg h1]
      exact ⟨hc, Nat.mod_lt _ (hbs q), ht⟩
  case tryPop_abs =>
    intro q hq
    obtain ⟨hc, hh, ht⟩ := hq
    show ringAbs q =
      (match (atomic_spin_spsc_queue.try_pop q).1 with | some a => [a] | none => []) ++
        ringAbs (atomic_spin_spsc_queue.try_pop q).2
    unfold atomic_spin_spsc_queue.try_pop
    by_cases h1 : q.head = q.tail
    · rw [if_pos h1]; simp
    · rw [if_neg h1]
      simpa using ringAbs_pop_eq q hh ht h1
  case pop_inv =>
    intro q p hq hp
    obtain ⟨hc, hh, ht⟩ := hq
    simp only [atomic_spin_spsc_queue.impl] at hp
    unfold atomic_spin_spsc_queue.pop at hp
    by_cases h1 : q.head = q.tail
    · rw [if_pos h1] at hp
      by_cases h2 : q.closed = true
      · rw [if_pos h2] at hp
        simp only [Option.some.injEq] at hp
        rw [← hp]
        exact ⟨hc, hh, ht⟩
      · rw [if_neg h2] at hp; exact absurd hp (by simp)
    · rw [if_neg h1] at hp
      simp only [Option.some.injEq] at hp
      rw [← hp]
      exact ⟨hc, Nat.mod_lt _ (hbs q), ht⟩
  case pop_abs =>
    intro q p hq hp
    obtain ⟨hc, hh, ht⟩ := hq
    simp only [atomic_spin_spsc_queue.impl] at hp
    unfold atomic_spin_spsc_queue.pop at hp
    by_cases h1 : q.head = q.tail
    · rw [if_pos h1] at hp
      by_cases h2 : q.closed = true
      · rw [if_pos h2] at hp
        simp only [Option.some.injEq] at hp
        rw [← hp]
        simp
      · rw [if_neg h2] at hp; exact absurd hp (by simp)
    · rw [if_neg h1] at hp
      simp only [Option.some.injEq] at hp
      rw [← hp]
      simpa using ringAbs_pop_eq q hh ht h1

/-- Closing a ring-variant queue touches only the `closed_` flag. -/
theorem spin_close_ok (α : Type) (c : Nat) :
    ∀ q : RingState α, ringInv c q →
      ringInv c ((atomic_spin_spsc_queue.impl α).closeFn q) ∧
        ringAbs ((atomic_spin_spsc_queue.impl α).closeFn q) = ringAbs q := by
  intro q hq
  obtain ⟨hc, hh, ht⟩ := hq
  exact ⟨⟨hc, hh, ht⟩, rfl⟩

/-- Sequentially, the wait-notify variant implements exactly the same state
transformers as the busy-spin variant. -/
theorem wait_impl_eq_spin (α : Type) :
    atomic_wait_spsc_queue.impl α = atomic_spin_spsc_queue.impl α := rfl

/-- Sequentially, the tail-head variant implements exactly the same state
transformers as the busy-spin variant (its `close` uses `exchange`, with
the same effect). -/
theorem tail_head_impl_eq_spin (α : Type) :
    atomic_tail_head_spsc_queue.impl α = atomic_spin_spsc_queue.impl α := by
  have hclose : @atomic_tail_head_spsc_queue.close α = @atomic_spin_spsc_queue.close α := by
    funext q
    cases q with
    | mk cap buf hd tl cl =>
      cases cl
      · rfl
      · rfl
  unfold atomic_tail_head_spsc_queue.impl atomic_spin_spsc_queue.impl
  rw [hclose]
  rfl

/-- Wrapping the displaced tail advances the displacement by one. -/
theorem counter_tail_advance (h s c : Nat) :
    ((h + s) % c + 1) % c = (h + (s + 1)) % c := by
  rw [Nat.mod_add_mod]
  congr 1

/-- Advancing the head keeps the tail displaced by the decremented size. -/
theorem counter_pop_tail (h s c : Nat) (hs : 0 < s) :
    ((h + 1) % c + (s - 1)) % c = (h + s) % c := by
  rw [Nat.mod_add_mod]
  congr 1
  omega

/-- Pushing into a non-full counter-variant ring appends the item. -/
theorem counterAbs_push_eq (q : CounterState α) (a : α)
    (hh : q.head < q.capacity) (hs : q.size < q.capacity)
    (htl : q.tail = (q.head + q.size) % q.capacity) :
    counterAbs
      { q with
        buffer := fun i => if i = q.tail then a else q.buffer i,
        tail := (q.tail + 1) % q.capacity,
        size := q.size + 1 } = counterAbs q ++ [a] := by
  simp only [counterAbs]
  rw [List.range_succ, List.map_append]
  congr 1
  · apply List.map_congr_left
    intro i hi
    rw [List.mem_range] at hi
    have hne2 : (q.head + i) % q.capacity ≠ q.tail := by
      rw [htl]
      exact counter_slot_ne q.head q.size i q.capacity hh hs hi
    show (if (q.head + i) % q.capacity = q.tail then a
          else q.buffer ((q.head + i) % q.capacity)) = _
    rw [if_neg hne2]
  · show [if (q.head + q.size) % q.capacity = q.tail then a
          else q.buffer ((q.head + q.size) % q.capacity)] = [a]
    rw [if_pos htl.symm]

/-- Popping from a non-empty counter-variant ring removes the head item. -/
theorem counterAbs_pop_eq (q : CounterState α)
    (hh : q.head < q.capacity) (hs : 0 < q.size) :
    counterAbs q =
      q.buffer q.head :: counterAbs
        { q with head := (q.head + 1) % q.capacity, size := q.size - 1 } := by
  obtain ⟨s, hseq⟩ : ∃ s, q.size = s + 1 := ⟨q.size - 1, by omega⟩
  simp only [counterAbs, hseq, Nat.add_sub_cancel]
  rw [List.range_succ_eq_map, List.map_cons, List.map_map]
  congr 1
  · show q.buffer ((q.head + 0) % q.capacity) = q.buffer q.head
    rw [Nat.add_zero, Nat.mod_eq_of_lt hh]
  · apply List.map_congr_left
    intro i hi
    show q.buffer ((q.head + (i + 1)) % q.capacity) =
      q.buffer (((q.head + 1) % q.capacity + i) % q.capacity)
    rw [ring_slot_shift]

/-- The counter-wait variant preserves its invariant and acts on the live
list as a FIFO queue (for the four push and pop operations). -/
theorem counter_seqSpec (α : Type) (c : Nat) :
    SeqSpec (atomic_counter_spsc_queue.impl α) (counterInv c) counterAbs := by
  constructor
  case tryPush_inv =>
    intro q a hq
    obtain ⟨hc, hc0, hsz, hh, htl⟩ := hq
    show counterInv c (atomic_counter_spsc_queue.try_push q a).2
    unfold atomic_counter_spsc_queue.try_push
    by_cases h1 : q.capacity ≤ q.size ∨ q.closed = true
    · rw [if_pos h1]; exact ⟨hc, hc0, hsz, hh, htl⟩
    · rw [if_neg h1]
      push_neg at h1
      refine ⟨hc, hc0, ?_, hh, ?_⟩
      · show q.size + 1 ≤ q.capacity
        omega
      · show (q.tail + 1) % q.capacity = (q.head + (q.size + 1)) % q.capacity
        rw [htl, counter_tail_advance]
  case tryPush_abs =>
    intro q a hq
    obtain ⟨hc, hc0, hsz, hh, htl⟩ := hq
    show counterAbs (atomic_counter_spsc_queue.try_push q a).2 =
      counterAbs q ++ (if (atomic_counter_spsc_queue.try_push q a).1 then [a] else [])
    unfold atomic_counter_spsc_queue.try_push
    by_cases h1 : q.capacity ≤ q.size ∨ q.closed = true
    · rw [if_pos h1]; simp
    · rw [if_neg h1]
      push_neg at h1
      simp only [if_pos rfl]
      exact counterAbs_push_eq q a hh (by omega) htl
  case push_inv =>
    intro q a p hq hp
    obtain ⟨hc, hc0, hsz, hh, htl⟩ := hq
    simp only [atomic_counter_spsc_queue.impl] at hp
    unfold atomic_counter_spsc_queue.push at hp
    by_cases h1 : q.closed = true
    · rw [if_pos h1] at hp
      simp only [Option.some.injEq] at hp
      rw [← hp]
      exact ⟨hc, hc0, hsz, hh, htl⟩
    · rw [if_neg h1] at hp
      by_cases h2 : q.capacity ≤ q.size
      · rw [if_pos h2] at hp; exact absurd hp (by simp)
      · rw [if_neg h2] at hp
        simp only [Option.some.injEq] at hp
        rw [← hp]
        refine ⟨hc, hc0, ?_, hh, ?_⟩
        · show q.size + 1 ≤ q.capacity
          omega
        · show (q.tail + 1) % q.capacity = (q.head + (q.size + 1)) % q.capacity
          rw [htl, counter_tail_advance]
  case push_abs =>
    intro q a p hq hp
    obtain ⟨hc, hc0, hsz, hh, htl⟩ := hq
    simp only [atomic_counter_spsc_queue.impl] at hp
    unfold atomic_counter_spsc_queue.push at hp
    by_cases h1 : q.closed = true
    · rw [if_pos h1] at hp
      simp only [Option.some.injEq] at hp
      rw [← hp]
      simp
    · rw [if_neg h1] at hp
      by_cases h2 : q.capacity ≤ q.size
      · rw [if_pos h2] at hp; exact absurd hp (by simp)
      · rw [if_neg h2] at hp
        simp only [Option.some.injEq] at hp
        rw [← hp]
        simp only [if_pos rfl]
        exact counterAbs_push_eq q a hh (by omega) htl
  case tryPop_inv =>
    intro q hq
    obtain ⟨hc, hc0, hsz, hh, htl⟩ := hq
    show counterInv c (atomic_counter_spsc_queue.try_pop q).2
    unfold atomic_counter_spsc_queue.try_pop
    by_cases h1 : q.size = 0 ∨ q.closed = true
    · rw [if_pos h1]; exact ⟨hc, hc0, hsz, hh, htl⟩
    · rw [if_neg h1]
      push_neg at h1
      refine ⟨hc, hc0, ?_, Nat.mod_lt _ hc0, ?_⟩
      · show q.size - 1 ≤ q.capacity
        omega
      · show q.tail = ((q.head + 1) % q.capacity + (q.size - 1)) % q.capacity
        rw [counter_pop_tail _ _ _ (by omega), ← htl]
  case tryPop_abs =>
    intro q hq
    obtain ⟨hc, hc0, hsz, hh, htl⟩ := hq
    show counterAbs q =
      (match (atomic_counter_spsc_queue.try_pop q).1 with | some a => [a] | none => []) ++
        counterAbs (atomic_counter_spsc_queue.try_pop q).2
    unfold atomic_counter_spsc_queue.try_pop
    by_cases h1 : q.size = 0 ∨ q.closed = true
    · rw [if_pos h1]; simp
    · rw [if_neg h1]
      push_neg at h1
      simpa using counterAbs_pop_eq q hh (by omega)
  case pop_inv =>
    intro q p hq hp
    obtain ⟨hc, hc0, hsz, hh, htl⟩ := hq
    simp only [atomic_counter_spsc_queue.impl] at hp
    unfold atomic_counter_spsc_queue.pop at hp
    by_cases h1 : q.closed = true
    · rw [if_pos h1] at hp
      simp only [Option.some.injEq] at hp
      rw [← hp]
      exact ⟨hc, hc0, hsz, hh, htl⟩
    · rw [if_neg h1] at hp
      by_cases h2 : q.size = 0
      · rw [if_pos h2] at hp; exact absurd hp (by simp)
      · rw [if_neg h2] at hp
        simp only [Option.some.injEq] at hp
        rw [← hp]
        refine ⟨hc, hc0, ?_, Nat.mod_lt _ hc0, ?_⟩
        · show q.size - 1 ≤ q.capacity
          omega
        · show q.tail = ((q.head + 1) % q.capacity + (q.size - 1)) % q.capacity
          rw [counter_pop_tail _ _ _ (by omega), ← htl]
  case pop_abs =>
    intro q p hq hp
    obtain ⟨hc, hc0, hsz, hh, htl⟩ := hq
    simp only [atomic_counter_spsc_queue.impl] at hp
    unfold atomic_counter_spsc_queue.pop at hp
    by_cases h1 : q.closed = true
    · rw [if_pos h1] at hp
      simp only [Option.some.injEq] at hp
      rw [← hp]
      simp
    · rw [if_neg h1] at hp
      by_cases h2 : q.size = 0
      · rw [if_pos h2] at hp; exact absurd hp (by simp)
      · rw [if_neg h2] at hp
        simp only [Option.some.injEq] at hp
        rw [← hp]
        simpa using counterAbs_pop_eq q hh (by omega)

/-- The lock-based variant preserves its invariant and acts on its deque as
a FIFO queue. -/
theorem simple_seqSpec (α : Type) (c : Nat) :
    SeqSpec (simple_spsc_queue.impl α) (simpleInv c) (fun s => s.q) := by
  constructor
  case tryPush_inv =>
    intro s a hq
    obtain ⟨hc, hlen⟩ := hq
    show simpleInv c (simple_spsc_queue.try_push s a).2
    unfold simple_spsc_queue.try_push simple_spsc_queue.locked_push
    by_cases h1 : s.capacity ≤ s.q.length ∨ s.closed = true
    · rw [if_pos h1]; exact ⟨hc, hlen⟩
    · rw [if_neg h1]
      push_neg at h1
      exact ⟨hc, by simp; omega⟩
  case tryPush_abs =>
    intro s a hq
    show (simple_spsc_queue.try_push s a).2.q =
      s.q ++ (if (simple_spsc_queue.try_push s a).1 then [a] else [])
    unfold simple_spsc_queue.try_push simple_spsc_queue.locked_push
    by_cases h1 : s.capacity ≤ s.q.length ∨ s.closed = true
    · rw [if_pos h1]; simp
    · rw [if_neg h1]; simp
  case push_inv =>
    intro s a p hq hp
    obtain ⟨hc, hlen⟩ := hq
    simp only [simple_spsc_queue.impl] at hp
    unfold simple_spsc_queue.push simple_spsc_queue.locked_push at hp
    by_cases h1 : s.closed = false ∧ s.capacity ≤ s.q.length
    · rw [if_pos h1] at hp; exact absurd hp (by simp)
    · rw [if_neg h1] at hp
      simp only [Option.some.injEq] at hp
      rw [← hp]
      by_cases h2 : s.capacity ≤ s.q.length ∨ s.closed = true
      · rw [if_pos h2]; exact ⟨hc, hlen⟩
      · rw [if_neg h2]
        push_neg at h2
        exact ⟨hc, by simp; omega⟩
  case push_abs =>
    intro s a p hq hp
    simp only [simple_spsc_queue.impl] at hp
    unfold simple_spsc_queue.push simple_spsc_queue.locked_push at hp
    by_cases h1 : s.closed = false ∧ s.capacity ≤ s.q.length
    · rw [if_pos h1] at hp; exact absurd hp (by simp)
    · rw [if_neg h1] at hp
      simp only [Option.some.injEq] at hp
      rw [← hp]
      by_cases h2 : s.capacity ≤ s.q.length ∨ s.closed = true
      · rw [if_pos h2]; simp
      · rw [if_neg h2]; simp
  case tryPop_inv =>
    intro s hq
    obtain ⟨hc, hlen⟩ := hq
    show simpleInv c (simple_spsc_queue.try_pop s).2
    unfold simple_spsc_queue.try_pop simple_spsc_queue.locked_pop
    cases hqq : s.q with
    | nil => exact ⟨hc, hlen⟩
    | cons x rest =>
      refine ⟨hc, ?_⟩
      show rest.length ≤ c
      rw [hqq] at hlen
      simp at hlen
      omega
  case tryPop_abs =>
    intro s hq
    show s.q =
      (match (simple_spsc_queue.try_pop s).1 with | some a => [a] | none => []) ++
        (simple_spsc_queue.try_pop s).2.q
    unfold simple_spsc_queue.try_pop simple_spsc_queue.locked_pop
    cases hqq : s.q with
    | nil => simp [hqq]
    | cons x rest => simp [hqq]
  case pop_inv =>
    intro s p hq hp
    obtain ⟨hc, hlen⟩ := hq
    simp only [simple_spsc_queue.impl] at hp
    unfold simple_spsc_queue.pop simple_spsc_queue.locked_pop at hp
    by_cases h1 : s.closed = false ∧ s.q.length = 0
    · rw [if_pos h1] at hp; exact absurd hp (by simp)
    · rw [if_neg h1] at hp
      simp only [Option.some.injEq] at hp
      rw [← hp]
      cases hqq : s.q with
      | nil => exact ⟨hc, hlen⟩
      | cons x rest =>
        refine ⟨hc, ?_⟩
        show rest.length ≤ c
        rw [hqq] at hlen
        simp at hlen
        omega
  case pop_abs =>
    intro s p hq hp
    simp only [simple_spsc_queue.impl] at hp
    unfold simple_spsc_queue.pop simple_spsc_queue.locked_pop at hp
    by_cases h1 : s.closed = false ∧ s.q.length = 0
    · rw [if_pos h1] at hp; exact absurd hp (by simp)
    · rw [if_neg h1] at hp
      simp only [Option.some.injEq] at hp
      rw [← hp]
      cases hqq : s.q with
      | nil => simp [hqq]
      | cons x rest => simp [hqq]

/-- Closing the lock-based queue touches only the `closed_` flag. -/
theorem simple_close_ok (α : Type) (c : Nat) :
    ∀ s : SimpleState α, simpleInv c s →
      simpleInv c ((simple_spsc_queue.impl α).closeFn s) ∧
        ((simple_spsc_queue.impl α).closeFn s).q = s.q := by
  intro s hq
  obtain ⟨hc, hlen⟩ := hq
  exact ⟨⟨hc, hlen⟩, rfl⟩

/-- A `try_push` on the counter variant accounts correctly for the ghost
live count, also across `close`. -/
theorem counter_tryPush_cc {α : Type} (c : Nat) (q : CounterState α) (a : α) (n : Nat)
    (hq : counterClosedInv c q n) :
    ∃ m, counterClosedInv c (atomic_counter_spsc_queue.try_push q a).2 m ∧
      m = n + (if (atomic_counter_spsc_queue.try_push q a).1 then 1 else 0) := by
  obtain ⟨hc, hc0, hn, hopen, hclosed⟩ := hq
  unfold atomic_counter_spsc_queue.try_push
  by_cases h1 : q.capacity ≤ q.size ∨ q.closed = true
  · rw [if_pos h1]
    exact ⟨n, ⟨hc, hc0, hn, hopen, hclosed⟩, by simp⟩
  · rw [if_neg h1]
    push_neg at h1
    have hcl : q.closed = false := by
      cases hql : q.closed
      · rfl
      · exact absurd hql h1.2
    have hsz := hopen hcl
    refine ⟨n + 1, ⟨hc, hc0, ?_, ?_, ?_⟩, by simp⟩
    · show n + 1 ≤ q.capacity
      omega
    · show q.closed = false → q.size + 1 = n + 1
      intro _
      omega
    · show q.closed = true → q.size + 1 = 0
      intro hcon
      rw [hcl] at hcon
      exact absurd hcon (by simp)

/-- A blocking `push` on the counter variant accounts correctly for the
ghost live count, also across `close`. -/
theorem counter_push_cc {α : Type} (c : Nat) (q : CounterState α) (a : α)
    (p : Bool × CounterState α) (n : Nat) (hq : counterClosedInv c q n)
    (hp : atomic_counter_spsc_queue.push q a = some p) :
    ∃ m, counterClosedInv c p.2 m ∧ m = n + (if p.1 then 1 else 0) := by
  obtain ⟨hc, hc0, hn, hopen, hclosed⟩ := hq
  unfold atomic_counter_spsc_queue.push at hp
  by_cases h1 : q.closed = true
  · rw [if_pos h1] at hp
    simp only [Option.some.injEq] at hp
    rw [← hp]
    exact ⟨n, ⟨hc, hc0, hn, hopen, hclosed⟩, by simp⟩
  · rw [if_neg h1] at hp
    by_cases h2 : q.capacity ≤ q.size
    · rw [if_pos h2] at hp
      exact absurd hp (by simp)
    · rw [if_neg h2] at hp
      simp only [Option.some.injEq] at hp
      rw [← hp]
      have hcl : q.closed = false := by
        cases hql : q.closed
        · rfl
        · exact absurd hql h1
      have hsz := hopen hcl
      refine ⟨n + 1, ⟨hc, hc0, ?_, ?_, ?_⟩, by simp⟩
      · show n + 1 ≤ q.capacity
        omega
      · show q.closed = false → q.size + 1 = n + 1
        intro _
        omega
      · show q.closed = true → q.size + 1 = 0
        intro hcon
        rw [hcl] at hcon
        exact absurd hcon (by simp)

/-- A `try_pop` on the counter variant accounts correctly for the ghost
live count, also across `close`. -/
theorem counter_tryPop_cc {α : Type} (c : Nat) (q : CounterState α) (n : Nat)
    (hq : counterClosedInv c q n) :
    ∃ m, counterClosedInv c (atomic_counter_spsc_queue.try_pop q).2 m ∧
      m + (match (atomic_counter_spsc_queue.try_pop q).1 with
            | some _ => 1 | none => 0) = n := by
  obtain ⟨hc, hc0, hn, hopen, hclosed⟩ := hq
  unfold atomic_counter_spsc_queue.try_pop
  by_cases h1 : q.size = 0 ∨ q.closed = true
  · rw [if_pos h1]
    exact ⟨n, ⟨hc, hc0, hn, hopen, hclosed⟩, by simp⟩
  · rw [if_neg h1]
    push_neg at h1
    have hcl : q.closed = false := by
      cases hql : q.closed
      · rfl
      · exact absurd hql h1.2
    have hsz := hopen hcl
    refine ⟨n - 1, ⟨hc, hc0, ?_, ?_, ?_⟩, ?_⟩
    · show n - 1 ≤ q.capacity
      omega
    · show q.closed = false → q.size - 1 = n - 1
      intro _
      omega
    · show q.closed = true → q.size - 1 = 0
      intro hcon
      rw [hcl] at hcon
      exact absurd hcon (by simp)
    · show n - 1 + 1 = n
      omega

/-- A blocking `pop` on the counter variant accounts correctly for the
ghost live count, also across `close`. -/
theorem counter_pop_cc {α : Type} (c : Nat) (q : CounterState α)
    (p : Option α × CounterState α) (n : Nat) (hq : counterClosedInv c q n)
    (hp : atomic_counter_spsc_queue.pop q = some p) :
    ∃ m, counterClosedInv c p.2 m ∧
      m + (match p.1 with | some _ => 1 | none => 0) = n := by
  obtain ⟨hc, hc0, hn, hopen, hclosed⟩ := hq
  unfold atomic_counter_spsc_queue.pop at hp
  by_cases h1 : q.closed = true
  · rw [if_pos h1] at hp
    simp only [Option.some.injEq] at hp
    rw [← hp]
    exact ⟨n, ⟨hc, hc0, hn, hopen, hclosed⟩, by simp⟩
  · rw [if_neg h1] at hp
    by_cases h2 : q.size = 0
    · rw [if_pos h2] at hp
      exact absurd hp (by simp)
    · rw [if_neg h2] at hp
      simp only [Option.some.injEq] at hp
      rw [← hp]
      have hcl : q.closed = false := by
        cases hql : q.closed
        · rfl
        · exact absurd hql h1
      have hsz := hopen hcl
      refine ⟨n - 1, ⟨hc, hc0, ?_, ?_, ?_⟩, ?_⟩
      · show n - 1 ≤ q.capacity
        omega
      · show q.closed = false → q.size - 1 = n - 1
        intro _
        omega
      · show q.closed = true → q.size - 1 = 0
        intro hcon
        rw [hcl] at hcon
        exact absurd hcon (by simp)
      · show n - 1 + 1 = n
        omega

/-- `close` on the counter variant freezes the state and keeps the ghost
live count (while resetting `size_` to zero). -/
theorem counter_close_cc {α : Type} (c : Nat) (q : CounterState α) (n : Nat)
    (hq : counterClosedInv c q n) :
    counterClosedInv c (atomic_counter_spsc_queue.close q) n := by
  obtain ⟨hc, hc0, hn, _, _⟩ := hq
  refine ⟨hc, hc0, hn, ?_, ?_⟩
  · show (true : Bool) = false → (0 : Nat) = n
    intro hcon
    exact absurd hcon (by simp)
  · show (true : Bool) = true → (0 : Nat) = 0
    intro _
    rfl

/-- Occupancy accounting for the counter variant over any completing trace,
`close` included: the final ghost live count balances accepted pushes
against returned pops and stays within capacity. -/
theorem counter_run_count {α : Type} (c : Nat) (ops : List (Op α)) :
    ∀ (q : CounterState α) (n : Nat) (r : CounterState α × List α × List α),
      counterClosedInv c q n →
      runOps (atomic_counter_spsc_queue.impl α) ops q = some r →
      ∃ m, counterClosedInv c r.1 m ∧ m + r.2.2.length = n + r.2.1.length := by
  induction ops with
  | nil =>
    intro q n r hq hr
    simp only [runOps, Option.some.injEq] at hr
    subst hr
    exact ⟨n, hq, by simp⟩
  | cons op rest ih =>
    intro q n r hq hr
    cases op with
    | push a =>
      simp only [runOps] at hr
      split at hr
      · simp at hr
      · rename_i p hp
        split at hr
        · simp at hr
        · rename_i qf pushed popped hrest
          simp only [Option.some.injEq] at hr
          subst hr
          obtain ⟨n1, hinv1, hn1⟩ := counter_push_cc c q a p n hq hp
          obtain ⟨m, hm, hacc⟩ := ih p.2 n1 (qf, pushed, popped) hinv1 hrest
          refine ⟨m, hm, ?_⟩
          have hacc2 : m + popped.length = n1 + pushed.length := by simpa using hacc
          cases hok : p.1 <;> rw [hok] at hn1 <;> simp at hn1 <;> simp [hok] <;> omega
    | tryPush a =>
      simp only [runOps] at hr
      split at hr
      · simp at hr
      · rename_i qf pushed popped hrest
        simp only [Option.some.injEq] at hr
        subst hr
        obtain ⟨n1, hinv1, hn1⟩ := counter_tryPush_cc c q a n hq
        obtain ⟨m, hm, hacc⟩ := ih _ n1 (qf, pushed, popped) hinv1 hrest
        refine ⟨m, hm, ?_⟩
        have hacc2 : m + popped.length = n1 + pushed.length := by simpa using hacc
        simp only [atomic_counter_spsc_queue.impl]
        rcases Bool.eq_false_or_eq_true (atomic_counter_spsc_queue.try_push q a).1 with hok | hok <;>
          rw [hok] at hn1 <;> simp at hn1 <;> simp [hok] <;> omega
    | pop =>
      simp only [runOps] at hr
      split at hr
      · simp at hr
      · rename_i p hp
        split at hr
        · simp at hr
        · rename_i qf pushed popped hrest
          simp only [Option.some.injEq] at hr
          subst hr
          obtain ⟨n1, hinv1, hn1⟩ := counter_pop_cc c q p n hq hp
          obtain ⟨m, hm, hacc⟩ := ih p.2 n1 (qf, pushed, popped) hinv1 hrest
          refine ⟨m, hm, ?_⟩
          have hacc2 : m + popped.length = n1 + pushed.length := by simpa using hacc
          cases hv : p.1 <;> rw [hv] at hn1 <;> simp at hn1 <;> simp [hv] <;> omega
    | tryPop =>
      simp only [runOps] at hr
      split at hr
      · simp at hr
      · rename_i qf pushed popped hrest
        simp only [Option.some.injEq] at hr
        subst hr
        obtain ⟨n1, hinv1, hn1⟩ := counter_tryPop_cc c q n hq
        obtain ⟨m, hm, hacc⟩ := ih _ n1 (qf, pushed, popped) hinv1 hrest
        refine ⟨m, hm, ?_⟩
        have hacc2 : m + popped.length = n1 + pushed.length := by simpa using hacc
        simp only [atomic_counter_spsc_queue.impl]
        rcases hopt : (atomic_counter_spsc_queue.try_pop q).1 with _ | b <;>
          rw [hopt] at hn1 <;> simp at hn1 <;> simp [hopt] <;> omega
    | close =>
      simp only [runOps] at hr
      exact ih _ n r (counter_close_cc c q n hq) hr

/-- A freshly constructed ring-variant queue holds no live items. -/
theorem ringAbs_init (α : Type) [Inhabited α] (c : Nat) :
    ringAbs (atomic_spin_spsc_queue.init α c) = [] := by
  unfold ringAbs ringCount atomic_spin_spsc_queue.init RingState.bufferSize
  simp

/-- A freshly constructed ring-variant queue satisfies the ring invariant. -/
theorem ringInv_init (α : Type) [Inhabited α] (c : Nat) :
    ringInv c (atomic_spin_spsc_queue.init α c) :=
  ⟨rfl, Nat.succ_pos _, Nat.succ_pos _⟩

/-- A freshly constructed counter-variant queue satisfies its invariant. -/
theorem counterInv_init (α : Type) [Inhabited α] (c : Nat) (hc : 0 < c) :
    counterInv c (atomic_counter_spsc_queue.init α c) :=
  ⟨rfl, hc, Nat.zero_le _, hc, (Nat.zero_mod c).symm⟩

/-- A freshly constructed counter-variant queue carries ghost live count 0. -/
theorem counterClosedInv_init (α : Type) [Inhabited α] (c : Nat) (hc : 0 < c) :
    counterClosedInv c (atomic_counter_spsc_queue.init α c) 0 :=
  ⟨rfl, hc, Nat.zero_le _, fun _ => rfl, fun _ => rfl⟩

/-- A freshly constructed lock-based queue satisfies its invariant. -/
theorem simpleInv_init (α : Type) (c : Nat) :
    simpleInv c (simple_spsc_queue.init α c) :=
  ⟨rfl, Nat.zero_le _⟩

/-- The live list of a ring-variant state has `ringCount` elements. -/
theorem ringAbs_length (q : RingState α) : (ringAbs q).length = ringCount q := by
  simp [ringAbs]

/-- The live list of a counter-variant state has `size_` elements. -/
theorem counterAbs_length (q : CounterState α) : (counterAbs q).length = q.size := by
  simp [counterAbs]

/-- The ring occupancy never exceeds the capacity. -/
theorem ringCount_le (c : Nat) (q : RingState α) (hq : ringInv c q) :
    ringCount q ≤ c := by
  obtain ⟨hc, hh, ht⟩ := hq
  unfold ringCount
  rw [ring_dist_eq q.head q.tail q.bufferSize hh ht]
  have hbs : q.bufferSize = c + 1 := by rw [RingState.bufferSize, hc]
  split_ifs <;> omega

/-- The ring full test `(t + 1) % bs == h` holds exactly at occupancy
`bs - 1`. -/
theorem ring_full_iff (h t bs : Nat) (hh : h < bs) (ht : t < bs) :
    ((t + 1) % bs = h) ↔ ((t + bs - h) % bs = bs - 1) := by
  have hn : (t + 1) % bs = if t + 1 < bs then t + 1 else 0 := by
    rcases Nat.lt_or_ge (t + 1) bs with h1 | h1
    · rw [if_pos h1, Nat.mod_eq_of_lt h1]
    · have he : t + 1 = bs := by omega
      rw [if_neg (by omega), he, Nat.mod_self]
  rw [hn, ring_dist_eq h t bs hh ht]
  split_ifs <;> omega

/-- On any state satisfying the ring invariant, `try_push` of the spin
variant fails exactly when the queue holds `capacity` items or is closed. -/
theorem spin_tryPush_false_iff (c : Nat) (q : RingState α) (a : α)
    (hq : ringInv c q) :
    (atomic_spin_spsc_queue.try_push q a).1 = false ↔
      (ringCount q = c ∨ q.closed = true) := by
  obtain ⟨hc, hh, ht⟩ := hq
  have hbs : q.bufferSize = c + 1 := by rw [RingState.bufferSize, hc]
  have hiff : ((q.tail + 1) % q.bufferSize = q.head) ↔ ringCount q = c := by
    rw [ring_full_iff q.head q.tail q.bufferSize hh ht]
    unfold ringCount
    rw [hbs]
    constructor <;> intro h <;> omega
  unfold atomic_spin_spsc_queue.try_push
  by_cases h1 : q.closed = true
  · rw [if_pos h1]
    simp [h1]
  · rw [if_neg h1]
    by_cases h2 : (q.tail + 1) % q.bufferSize = q.head
    · rw [if_pos h2]
      simp [h1, hiff.mp h2]
    · rw [if_neg h2]
      simp [h1]
      exact fun hcnt => h2 (hiff.mpr hcnt)

/-- On any state satisfying the close-tolerant counter invariant with ghost
live count `m`, `try_push` of the counter variant fails exactly when `m`
items are live or the queue is closed. -/
theorem counter_tryPush_false_iff (c : Nat) (q : CounterState α) (a : α) (m : Nat)
    (hq : counterClosedInv c q m) :
    (atomic_counter_spsc_queue.try_push q a).1 = false ↔
      (m = c ∨ q.closed = true) := by
  obtain ⟨hc, hc0, hm, hopen, hclosed⟩ := hq
  unfold atomic_counter_spsc_queue.try_push
  by_cases h1 : q.capacity ≤ q.size ∨ q.closed = true
  · rw [if_pos h1]
    constructor
    · intro _
      rcases h1 with h1 | h1
      · cases hql : q.closed
        · have := hopen hql
          left
          omega
        · right
          rfl
      · right
        exact h1
    · intro _
      rfl
  · rw [if_neg h1]
    push_neg at h1
    have hcl : q.closed = false := by
      cases hql : q.closed
      · rfl
      · exact absurd hql h1.2
    have hsz := hopen hcl
    simp only [hcl]
    constructor
    · intro hcon
      exact absurd hcon (by simp)
    · intro hcon
      rcases hcon with hcon | hcon
      · omega
      · exact absurd hcon (by simp)

/-- On any state satisfying the lock-based invariant, `try_push` fails
exactly when the deque holds `capacity` items or the queue is closed. -/
theorem simple_tryPush_false_iff (c : Nat) (s : SimpleState α) (a : α)
    (hq : simpleInv c s) :
    (simple_spsc_queue.try_push s a).1 = false ↔
      (s.q.length = c ∨ s.closed = true) := by
  obtain ⟨hc, hlen⟩ := hq
  unfold simple_spsc_queue.try_push simple_spsc_queue.locked_push
  by_cases h1 : s.capacity ≤ s.q.length ∨ s.closed = true
  · rw [if_pos h1]
    constructor
    · intro _
      rcases h1 with h1 | h1
      · left
        omega
      · right
        exact h1
    · intro _
      rfl
  · rw [if_neg h1]
    push_neg at h1
    constructor
    · intro hcon
      exact absurd hcon (by simp)
    · intro hcon
      rcases hcon with hcon | hcon
      · omega
      · exact absurd hcon h1.2

/-- C1: in every variant, a single-threaded sequence of push, try_push,
pop and try_pop calls returns items in exactly the order they were
successfully pushed, with no loss and no duplication: the accepted pushes
equal the returned pops followed by the items still buffered.  The
capacity-2 scenario push 1; push 2; pop; push 3; pop; pop (which wraps the
indices) returns 1, 2, 3 in order. -/
theorem C1_fifo_order :
    (∀ (α : Type) [Inhabited α] (c : Nat) (ops : List (Op α))
        (r : RingState α × List α × List α), 0 < c →
        runOps (atomic_spin_spsc_queue.impl α) ops
          (atomic_spin_spsc_queue.init α c) = some r →
        r.2.1 = r.2.2 ++ ringAbs r.1) ∧
    (∀ (α : Type) [Inhabited α] (c : Nat) (ops : List (Op α))
        (r : RingState α × List α × List α), 0 < c →
        runOps (atomic_wait_spsc_queue.impl α) ops
          (atomic_wait_spsc_queue.init α c) = some r →
        r.2.1 = r.2.2 ++ ringAbs r.1) ∧
    (∀ (α : Type) [Inhabited α] (c : Nat) (ops : List (Op α))
        (r : RingState α × List α × List α), 0 < c →
        runOps (atomic_tail_head_spsc_queue.impl α) ops
          (atomic_tail_head_spsc_queue.init α c) = some r →
        r.2.1 = r.2.2 ++ ringAbs r.1) ∧
    (∀ (α : Type) [Inhabited α] (c : Nat) (ops : List (Op α))
        (r : CounterState α × List α × List α), 0 < c → Op.close ∉ ops →
        runOps (atomic_counter_spsc_queue.impl α) ops
          (atomic_counter_spsc_queue.init α c) = some r →
        r.2.1 = r.2.2 ++ counterAbs r.1) ∧
    (∀ (α : Type) (c : Nat) (ops : List (Op α))
        (r : SimpleState α × List α × List α), 0 < c →
        runOps (simple_spsc_queue.impl α) ops
          (simple_spsc_queue.init α c) = some r →
        r.2.1 = r.2.2 ++ r.1.q) ∧
    ((runOps (atomic_spin_spsc_queue.impl Nat)
        [Op.push 1, Op.push 2, Op.pop, Op.push 3, Op.pop, Op.pop]
        (atomic_spin_spsc_queue.init Nat 2)).map (fun r => (r.2.1, r.2.2)) =
      some ([1, 2, 3], [1, 2, 3])) ∧
    ((runOps (atomic_wait_spsc_queue.impl Nat)
        [Op.push 1, Op.push 2, Op.pop, Op.push 3, Op.pop, Op.pop]
        (atomic_wait_spsc_queue.init Nat 2)).map (fun r => (r.2.1, r.2.2)) =
      some ([1, 2, 3], [1, 2, 3])) ∧
    ((runOps (atomic_tail_head_spsc_queue.impl Nat)
        [Op.push 1, Op.push 2, Op.pop, Op.push 3, Op.pop, Op.pop]
        (atomic_tail_head_spsc_queue.init Nat 2)).map (fun r => (r.2.1, r.2.2)) =
      some ([1, 2, 3], [1, 2, 3])) ∧
    ((runOps (atomic_counter_spsc_queue.impl Nat)
        [Op.push 1, Op.push 2, Op.pop, Op.push 3, Op.pop, Op.pop]
        (atomic_counter_spsc_queue.init Nat 2)).map (fun r => (r.2.1, r.2.2)) =
      some ([1, 2, 3], [1, 2, 3])) ∧
    ((runOps (simple_spsc_queue.impl Nat)
        [Op.push 1, Op.push 2, Op.pop, Op.push 3, Op.pop, Op.pop]
        (simple_spsc_queue.init Nat 2)).map (fun r => (r.2.1, r.2.2)) =
      some ([1, 2, 3], [1, 2, 3])) := by
  refine ⟨?_, ?_, ?_, ?_, ?_, rfl, rfl, rfl, rfl, rfl⟩
  · intro α inst c ops r hc hr
    have h := runOps_spec (spin_seqSpec α c) ops (atomic_spin_spsc_queue.init α c) r
      (fun o ho he s hs => spin_close_ok α c s hs) (ringInv_init α c) hr
    have h2 := h.2
    rw [ringAbs_init] at h2
    simpa using h2
  · intro α inst c ops r hc hr
    rw [wait_impl_eq_spin] at hr
    have hinit : atomic_wait_spsc_queue.init α c = atomic_spin_spsc_queue.init α c := rfl
    rw [hinit] at hr
    have h := runOps_spec (spin_seqSpec α c) ops (atomic_spin_spsc_queue.init α c) r
      (fun o ho he s hs => spin_close_ok α c s hs) (ringInv_init α c) hr
    have h2 := h.2
    rw [ringAbs_init] at h2
    simpa using h2
  · intro α inst c ops r hc hr
    rw [tail_head_impl_eq_spin] at hr
    have hinit : atomic_tail_head_spsc_queue.init α c = atomic_spin_spsc_queue.init α c := rfl
    rw [hinit] at hr
    have h := runOps_spec (spin_seqSpec α c) ops (atomic_spin_spsc_queue.init α c) r
      (fun o ho he s hs => spin_close_ok α c s hs) (ringInv_init α c) hr
    have h2 := h.2
    rw [ringAbs_init] at h2
    simpa using h2
  · intro α inst c ops r hc hno hr
    have h := runOps_spec (counter_seqSpec α c) ops (atomic_counter_spsc_queue.init α c) r
      (fun o ho he s hs => absurd (he ▸ ho) hno) (counterInv_init α c hc) hr
    have h2 := h.2
    have hai : counterAbs (atomic_counter_spsc_queue.init α c) = [] := rfl
    rw [hai] at h2
    simpa using h2
  · intro α c ops r hc hr
    have h := runOps_spec (simple_seqSpec α c) ops (simple_spsc_queue.init α c) r
      (fun o ho he s hs => simple_close_ok α c s hs) (simpleInv_init α c) hr
    have h2 := h.2
    simpa using h2

/-- C1 witness: the spin-variant FIFO conclusion instantiated at capacity 1
and the one-operation trace try_pop. -/
theorem C1_fifo_order_witness :
    ([] : List Nat) = [] ++ ringAbs (atomic_spin_spsc_queue.init Nat 1) :=
  C1_fifo_order.1 Nat 1 [Op.tryPop]
    (atomic_spin_spsc_queue.init Nat 1, [], []) Nat.one_pos rfl

/-- C2 counterexample: on the counter-wait variant with capacity 1, the
trace try_push 5; close accepts one item and pops none, so one item is
live, but the size counter reads 0 because `close` stores 0 into `size_`;
the claimed equality between live items and the size counter is false at
this input. -/
theorem C2_live_count_counterexample :
    (runOps (atomic_counter_spsc_queue.impl Nat) [Op.tryPush 5, Op.close]
        (atomic_counter_spsc_queue.init Nat 1)).map
      (fun r => decide (r.2.1.length = r.2.2.length + r.1.size)) = some false := rfl

/-- C2 (amended): after any completing trace, the number of live items
(accepted pushes minus returned pops) equals `(tail - head) mod buffer_size`
for the three head/tail ring variants, the deque length for the lock-based
variant, and the `size_` counter for the counter-wait variant on traces
without `close` (whose `close` resets `size_` to 0 while live items may
remain); in every variant, also across `close`, the live count never
exceeds the capacity. -/
theorem C2_live_count :
    (∀ (α : Type) [Inhabited α] (c : Nat) (ops : List (Op α))
        (r : RingState α × List α × List α), 0 < c →
        runOps (atomic_spin_spsc_queue.impl α) ops
          (atomic_spin_spsc_queue.init α c) = some r →
        r.2.1.length = r.2.2.length + ringCount r.1 ∧ ringCount r.1 ≤ c) ∧
    (∀ (α : Type) [Inhabited α] (c : Nat) (ops : List (Op α))
        (r : RingState α × List α × List α), 0 < c →
        runOps (atomic_wait_spsc_queue.impl α) ops
          (atomic_wait_spsc_queue.init α c) = some r →
        r.2.1.length = r.2.2.length + ringCount r.1 ∧ ringCount r.1 ≤ c) ∧
    (∀ (α : Type) [Inhabited α] (c : Nat) (ops : List (Op α))
        (r : RingState α × List α × List α), 0 < c →
        runOps (atomic_tail_head_spsc_queue.impl α) ops
          (atomic_tail_head_spsc_queue.init α c) = some r →
        r.2.1.length = r.2.2.length + ringCount r.1 ∧ ringCount r.1 ≤ c) ∧
    (∀ (α : Type) (c : Nat) (ops : List (Op α))
        (r : SimpleState α × List α × List α), 0 < c →
        runOps (simple_spsc_queue.impl α) ops
          (simple_spsc_queue.init α c) = some r →
        r.2.1.length = r.2.2.length + r.1.q.length ∧ r.1.q.length ≤ c) ∧
    (∀ (α : Type) [Inhabited α] (c : Nat) (ops : List (Op α))
        (r : CounterState α × List α × List α), 0 < c → Op.close ∉ ops →
        runOps (atomic_counter_spsc_queue.impl α) ops
          (atomic_counter_spsc_queue.init α c) = some r →
        r.2.1.length = r.2.2.length + r.1.size ∧ r.1.size ≤ c) ∧
    (∀ (α : Type) [Inhabited α] (c : Nat) (ops : List (Op α))
        (r : CounterState α × List α × List α), 0 < c →
        runOps (atomic_counter_spsc_queue.impl α) ops
          (atomic_counter_spsc_queue.init α c) = some r →
        r.2.2.length ≤ r.2.1.length ∧ r.2.1.length ≤ r.2.2.length + c) := by
  refine ⟨?_, ?_, ?_, ?_, ?_, ?_⟩
  · intro α inst c ops r hc hr
    have h := runOps_spec (spin_seqSpec α c) ops (atomic_spin_spsc_queue.init α c) r
      (fun o ho he s hs => spin_close_ok α c s hs) (ringInv_init α c) hr
    have h2 := h.2
    rw [ringAbs_init] at h2
    simp only [List.nil_append] at h2
    have hlen := congrArg List.length h2
    rw [List.length_append, ringAbs_length] at hlen
    exact ⟨hlen, ringCount_le c r.1 h.1⟩
  · intro α inst c ops r hc hr
    rw [wait_impl_eq_spin] at hr
    have hinit : atomic_wait_spsc_queue.init α c = atomic_spin_spsc_queue.init α c := rfl
    rw [hinit] at hr
    have h := runOps_spec (spin_seqSpec α c) ops (atomic_spin_spsc_queue.init α c) r
      (fun o ho he s hs => spin_close_ok α c s hs) (ringInv_init α c) hr
    have h2 := h.2
    rw [ringAbs_init] at h2
    simp only [List.nil_append] at h2
    have hlen := congrArg List.length h2
    rw [List.length_append, ringAbs_length] at hlen
    exact ⟨hlen, ringCount_le c r.1 h.1⟩
  · intro α inst c ops r hc hr
    rw [tail_head_impl_eq_spin] at hr
    have hinit : atomic_tail_head_spsc_queue.init α c = atomic_spin_spsc_queue.init α c := rfl
    rw [hinit] at hr
    have h := runOps_spec (spin_seqSpec α c) ops (atomic_spin_spsc_queue.init α c) r
      (fun o ho he s hs => spin_close_ok α c s hs) (ringInv_init α c) hr
    have h2 := h.2
    rw [ringAbs_init] at h2
    simp only [List.nil_append] at h2
    have hlen := congrArg List.length h2
    rw [List.length_append, ringAbs_length] at hlen
    exact ⟨hlen, ringCount_le c r.1 h.1⟩
  · intro α c ops r hc hr
    have h := runOps_spec (simple_seqSpec α c) ops (simple_spsc_queue.init α c) r
      (fun o ho he s hs => simple_close_ok α c s hs) (simpleInv_init α c) hr
    have h2 := h.2
    simp only [List.nil_append] at h2
    have hlen := congrArg List.length h2
    simp only [simple_spsc_queue.init, List.length_nil, List.length_append] at hlen
    exact ⟨by simpa using hlen, h.1.2⟩
  · intro α inst c ops r hc hno hr
    have h := runOps_spec (counter_seqSpec α c) ops (atomic_counter_spsc_queue.init α c) r
      (fun o ho he s hs => absurd (he ▸ ho) hno) (counterInv_init α c hc) hr
    have h2 := h.2
    have hai : counterAbs (atomic_counter_spsc_queue.init α c) = [] := rfl
    rw [hai] at h2
    simp only [List.nil_append] at h2
    have hlen := congrArg List.length h2
    rw [List.length_append, counterAbs_length] at hlen
    obtain ⟨hc1, _, hsz, _, _⟩ := h.1
    exact ⟨hlen, by omega⟩
  · intro α inst c ops r hc hr
    obtain ⟨m, hm, hacc⟩ :=
      counter_run_count c ops (atomic_counter_spsc_queue.init α c) 0 r
        (counterClosedInv_init α c hc) hr
    obtain ⟨hc1, _, hmc, _, _⟩ := hm
    constructor
    · omega
    · omega

/-- C2 witness: the spin-variant conclusion instantiated at capacity 1 and
the one-operation trace try_pop. -/
theorem C2_live_count_witness :
    ([] : List Nat).length =
      ([] : List Nat).length + ringCount (atomic_spin_spsc_queue.init Nat 1) ∧
    ringCount (atomic_spin_spsc_queue.init Nat 1) ≤ 1 :=
  C2_live_count.1 Nat 1 [Op.tryPop]
    (atomic_spin_spsc_queue.init Nat 1, [], []) Nat.one_pos rfl

/-- C3: the counter-wait variant does not drain buffered items after
`close`: with capacity 3, after push 10; push 20; close, a pop returns
`nullopt` even though 10 and 20 were accepted and never popped (the pop
checks `closed_` first, and `close` has reset `size_`), whereas the spin
variant drains 10 and 20 and only then reports empty. -/
theorem C3_drain_after_close :
    ((runOps (atomic_counter_spsc_queue.impl Nat)
        [Op.push 10, Op.push 20, Op.close, Op.pop]
        (atomic_counter_spsc_queue.init Nat 3)).map (fun r => (r.2.1, r.2.2)) =
      some ([10, 20], [])) ∧
    ((runOps (atomic_spin_spsc_queue.impl Nat)
        [Op.push 10, Op.push 20, Op.close, Op.pop, Op.pop, Op.pop]
        (atomic_spin_spsc_queue.init Nat 3)).map (fun r => (r.2.1, r.2.2)) =
      some ([10, 20], [10, 20])) := ⟨rfl, rfl⟩

/-- C4: in every variant, on any reachable state `try_push` returns false
exactly when the queue is full (the number of live items — accepted pushes
minus returned pops — equals the capacity) or closed, and otherwise stores
the item at the back and returns true; on a fresh queue of capacity 2,
try_push 1 and try_push 2 succeed, try_push 3 fails, and the contents are
the list 1, 2. -/
theorem C4_try_push_exact :
    (∀ (α : Type) [Inhabited α] (c : Nat) (ops : List (Op α))
        (r : RingState α × List α × List α) (a : α), 0 < c →
        runOps (atomic_spin_spsc_queue.impl α) ops
          (atomic_spin_spsc_queue.init α c) = some r →
        ((atomic_spin_spsc_queue.try_push r.1 a).1 = false ↔
          (r.2.1.length = r.2.2.length + c ∨ r.1.closed = true)) ∧
        ((atomic_spin_spsc_queue.try_push r.1 a).1 = true →
          ringAbs (atomic_spin_spsc_queue.try_push r.1 a).2 = ringAbs r.1 ++ [a])) ∧
    (∀ (α : Type) [Inhabited α] (c : Nat) (ops : List (Op α))
        (r : RingState α × List α × List α) (a : α), 0 < c →
        runOps (atomic_wait_spsc_queue.impl α) ops
          (atomic_wait_spsc_queue.init α c) = some r →
        ((atomic_wait_spsc_queue.try_push r.1 a).1 = false ↔
          (r.2.1.length = r.2.2.length + c ∨ r.1.closed = true)) ∧
        ((atomic_wait_spsc_queue.try_push r.1 a).1 = true →
          ringAbs (atomic_wait_spsc_queue.try_push r.1 a).2 = ringAbs r.1 ++ [a])) ∧
    (∀ (α : Type) [Inhabited α] (c : Nat) (ops : List (Op α))
        (r : RingState α × List α × List α) (a : α), 0 < c →
        runOps (atomic_tail_head_spsc_queue.impl α) ops
          (atomic_tail_head_spsc_queue.init α c) = some r →
        ((atomic_tail_head_spsc_queue.try_push r.1 a).1 = false ↔
          (r.2.1.length = r.2.2.length + c ∨ r.1.closed = true)) ∧
        ((atomic_tail_head_spsc_queue.try_push r.1 a).1 = true →
          ringAbs (atomic_tail_head_spsc_queue.try_push r.1 a).2 = ringAbs r.1 ++ [a])) ∧
    (∀ (α : Type) [Inhabited α] (c : Nat) (ops : List (Op α))
        (r : CounterState α × List α × List α) (a : α), 0 < c →
        runOps (atomic_counter_spsc_queue.impl α) ops
          (atomic_counter_spsc_queue.init α c) = some r →
        ((atomic_counter_spsc_queue.try_push r.1 a).1 = false ↔
          (r.2.1.length = r.2.2.length + c ∨ r.1.closed = true)) ∧
        (Op.close ∉ ops → (atomic_counter_spsc_queue.try_push r.1 a).1 = true →
          counterAbs (atomic_counter_spsc_queue.try_push r.1 a).2 =
            counterAbs r.1 ++ [a])) ∧
    (∀ (α : Type) (c : Nat) (ops : List (Op α))
        (r : SimpleState α × List α × List α) (a : α), 0 < c →
        runOps (simple_spsc_queue.impl α) ops
          (simple_spsc_queue.init α c) = some r →
        ((simple_spsc_queue.try_push r.1 a).1 = false ↔
          (r.2.1.length = r.2.2.length + c ∨ r.1.closed = true)) ∧
        ((simple_spsc_queue.try_push r.1 a).1 = true →
          (simple_spsc_queue.try_push r.1 a).2.q = r.1.q ++ [a])) ∧
    ((runOps (atomic_spin_spsc_queue.impl Nat)
        [Op.tryPush 1, Op.tryPush 2, Op.tryPush 3]
        (atomic_spin_spsc_queue.init Nat 2)).map (fun r => (r.2.1, ringAbs r.1)) =
      some ([1, 2], [1, 2])) ∧
    ((runOps (atomic_counter_spsc_queue.impl Nat)
        [Op.tryPush 1, Op.tryPush 2, Op.tryPush 3]
        (atomic_counter_spsc_queue.init Nat 2)).map (fun r => (r.2.1, counterAbs r.1)) =
      some ([1, 2], [1, 2])) ∧
    ((runOps (simple_spsc_queue.impl Nat)
        [Op.tryPush 1, Op.tryPush 2, Op.tryPush 3]
        (simple_spsc_queue.init Nat 2)).map (fun r => (r.2.1, r.1.q)) =
      some ([1, 2], [1, 2])) := by
  refine ⟨?_, ?_, ?_, ?_, ?_, rfl, rfl, rfl⟩
  · intro α inst c ops r a hc hr
    have h := runOps_spec (spin_seqSpec α c) ops (atomic_spin_spsc_queue.init α c) r
      (fun o ho he s hs => spin_close_ok α c s hs) (ringInv_init α c) hr
    have h2 := h.2
    rw [ringAbs_init] at h2
    simp only [List.nil_append] at h2
    have hlen := congrArg List.length h2
    rw [List.length_append, ringAbs_length] at hlen
    constructor
    · have hiff : ringCount r.1 = c ↔ r.2.1.length = r.2.2.length + c := by omega
      rw [spin_tryPush_false_iff c r.1 a h.1, hiff]
    · intro htrue
      have habs := (spin_seqSpec α c).tryPush_abs r.1 a h.1
      simp only [atomic_spin_spsc_queue.impl] at habs
      simpa [htrue] using habs
  · intro α inst c ops r a hc hr
    rw [wait_impl_eq_spin] at hr
    have hinit : atomic_wait_spsc_queue.init α c = atomic_spin_spsc_queue.init α c := rfl
    rw [hinit] at hr
    have htp : @atomic_wait_spsc_queue.try_push α = @atomic_spin_spsc_queue.try_push α := rfl
    rw [htp]
    have h := runOps_spec (spin_seqSpec α c) ops (atomic_spin_spsc_queue.init α c) r
      (fun o ho he s hs => spin_close_ok α c s hs) (ringInv_init α c) hr
    have h2 := h.2
    rw [ringAbs_init] at h2
    simp only [List.nil_append] at h2
    have hlen := congrArg List.length h2
    rw [List.length_append, ringAbs_length] at hlen
    constructor
    · have hiff : ringCount r.1 = c ↔ r.2.1.length = r.2.2.length + c := by omega
      rw [spin_tryPush_false_iff c r.1 a h.1, hiff]
    · intro htrue
      have habs := (spin_seqSpec α c).tryPush_abs r.1 a h.1
      simp only [atomic_spin_spsc_queue.impl] at habs
      simpa [htrue] using habs
  · intro α inst c ops r a hc hr
    rw [tail_head_impl_eq_spin] at hr
    have hinit : atomic_tail_head_spsc_queue.init α c = atomic_spin_spsc_queue.init α c := rfl
    rw [hinit] at hr
    have htp : @atomic_tail_head_spsc_queue.try_push α = @atomic_spin_spsc_queue.try_push α := rfl
    rw [htp]
    have h := runOps_spec (spin_seqSpec α c) ops (atomic_spin_spsc_queue.init α c) r
      (fun o ho he s hs => spin_close_ok α c s hs) (ringInv_init α c) hr
    have h2 := h.2
    rw [ringAbs_init] at h2
    simp only [List.nil_append] at h2
    have hlen := congrArg List.length h2
    rw [List.length_append, ringAbs_length] at hlen
    constructor
    · have hiff : ringCount r.1 = c ↔ r.2.1.length = r.2.2.length + c := by omega
      rw [spin_tryPush_false_iff c r.1 a h.1, hiff]
    · intro htrue
      have habs := (spin_seqSpec α c).tryPush_abs r.1 a h.1
      simp only [atomic_spin_spsc_queue.impl] at habs
      simpa [htrue] using habs
  · intro α inst c ops r a hc hr
    constructor
    · obtain ⟨m, hm, hacc⟩ :=
        counter_run_count c ops (atomic_counter_spsc_queue.init α c) 0 r
          (counterClosedInv_init α c hc) hr
      have hiff : m = c ↔ r.2.1.length = r.2.2.length + c := by omega
      rw [counter_tryPush_false_iff c r.1 a m hm, hiff]
    · intro hno htrue
      have h := runOps_spec (counter_seqSpec α c) ops (atomic_counter_spsc_queue.init α c) r
        (fun o ho he s hs => absurd (he ▸ ho) hno) (counterInv_init α c hc) hr
      have habs := (counter_seqSpec α c).tryPush_abs r.1 a h.1
      simp only [atomic_counter_spsc_queue.impl] at habs
      simpa [htrue] using habs
  · intro α c ops r a hc hr
    have h := runOps_spec (simple_seqSpec α c) ops (simple_spsc_queue.init α c) r
      (fun o ho he s hs => simple_close_ok α c s hs) (simpleInv_init α c) hr
    have h2 := h.2
    simp only [List.nil_append] at h2
    have hlen := congrArg List.length h2
    simp only [simple_spsc_queue.init, List.length_nil, List.length_append] at hlen
    constructor
    · have hiff : r.1.q.length = c ↔ r.2.1.length = r.2.2.length + c := by
        simp at hlen
        omega
      rw [simple_tryPush_false_iff c r.1 a h.1, hiff]
    · intro htrue
      have habs := (simple_seqSpec α c).tryPush_abs r.1 a h.1
      simp only [simple_spsc_queue.impl] at habs
      simpa [htrue] using habs

/-- C4 witness: the spin-variant conclusion instantiated on a fresh queue
of capacity 1 and the empty trace. -/
theorem C4_try_push_exact_witness :
    ((atomic_spin_spsc_queue.try_push (atomic_spin_spsc_queue.init Nat 1) 5).1 = false ↔
      (([] : List Nat).length = ([] : List Nat).length + 1 ∨
        (atomic_spin_spsc_queue.init Nat 1).closed = true)) ∧
    ((atomic_spin_spsc_queue.try_push (atomic_spin_spsc_queue.init Nat 1) 5).1 = true →
      ringAbs (atomic_spin_spsc_queue.try_push (atomic_spin_spsc_queue.init Nat 1) 5).2 =
        ringAbs (atomic_spin_spsc_queue.init Nat 1) ++ [5]) :=
  C4_try_push_exact.1 Nat 1 [] (atomic_spin_spsc_queue.init Nat 1, [], []) 5
    Nat.one_pos rfl

/-- C5 counterexample: the counter-wait variant does not use a
`capacity + 1`-slot ring: at capacity 1 it reserves 1 slot (not 2) and
wraps indices modulo 1, and after one successful try_push the state has
`head_ == tail_` yet try_pop returns the item — so its operations do not
treat `head == tail` as the empty test. -/
theorem C5_ring_layout_counterexample :
    atomic_counter_spsc_queue.bufferSlots 1 ≠ 1 + 1 ∧
    ((atomic_counter_spsc_queue.try_push (atomic_counter_spsc_queue.init Nat 1) 5).2.head =
      (atomic_counter_spsc_queue.try_push (atomic_counter_spsc_queue.init Nat 1) 5).2.tail) ∧
    ((atomic_counter_spsc_queue.try_pop
        (atomic_counter_spsc_queue.try_push (atomic_counter_spsc_queue.init Nat 1) 5).2).1 =
      some 5) :=
  ⟨by decide, rfl, rfl⟩

/-- C5 (amended): the busy-spin, wait-notify and tail-head variants use a
ring of `capacity + 1` slots and treat the queue as empty exactly when
`head == tail` and their `try_push` fails exactly when closed or
`(tail + 1) mod buffer_size == head`; the counter-wait variant instead
reserves `capacity` slots, wraps indices modulo `capacity`, and tests
emptiness with `size_ == 0 or closed` and fullness with
`size_ >= capacity or closed`. -/
theorem C5_ring_layout :
    (∀ c, atomic_spin_spsc_queue.constructedSlots c = c + 1) ∧
    (∀ c, atomic_wait_spsc_queue.constructedSlots c = c + 1) ∧
    (∀ (α : Type) (q : RingState α), q.bufferSize = q.capacity + 1) ∧
    (∀ (α : Type) (q : RingState α),
      ((atomic_spin_spsc_queue.try_pop q).1 = none ↔ q.head = q.tail) ∧
      ((atomic_wait_spsc_queue.try_pop q).1 = none ↔ q.head = q.tail) ∧
      ((atomic_tail_head_spsc_queue.try_pop q).1 = none ↔ q.head = q.tail)) ∧
    (∀ (α : Type) (q : RingState α) (a : α),
      ((atomic_spin_spsc_queue.try_push q a).1 = false ↔
        (q.closed = true ∨ (q.tail + 1) % q.bufferSize = q.head)) ∧
      ((atomic_wait_spsc_queue.try_push q a).1 = false ↔
        (q.closed = true ∨ (q.tail + 1) % q.bufferSize = q.head)) ∧
      ((atomic_tail_head_spsc_queue.try_push q a).1 = false ↔
        (q.closed = true ∨ (q.tail + 1) % q.bufferSize = q.head))) ∧
    (∀ c, atomic_counter_spsc_queue.bufferSlots c = c) ∧
    (∀ (α : Type) (q : CounterState α),
      (atomic_counter_spsc_queue.try_pop q).1 = none ↔
        (q.size = 0 ∨ q.closed = true)) ∧
    (∀ (α : Type) (q : CounterState α) (a : α),
      (atomic_counter_spsc_queue.try_push q a).1 = false ↔
        (q.capacity ≤ q.size ∨ q.closed = true)) := by
  have hpop : ∀ (α : Type) (q : RingState α),
      (atomic_spin_spsc_queue.try_pop q).1 = none ↔ q.head = q.tail := by
    intro α q
    unfold atomic_spin_spsc_queue.try_pop
    by_cases h : q.head = q.tail
    · simp [h]
    · simp [h]
  have hpush : ∀ (α : Type) (q : RingState α) (a : α),
      (atomic_spin_spsc_queue.try_push q a).1 = false ↔
        (q.closed = true ∨ (q.tail + 1) % q.bufferSize = q.head) := by
    intro α q a
    unfold atomic_spin_spsc_queue.try_push
    by_cases h1 : q.closed = true
    · simp [h1]
    · by_cases h2 : (q.tail + 1) % q.bufferSize = q.head
      · simp [h1, h2]
      · simp [h1, h2]
  refine ⟨fun c => rfl, fun c => rfl, fun α q => rfl, ?_, ?_, fun c => rfl, ?_, ?_⟩
  · intro α q
    exact ⟨hpop α q, hpop α q, hpop α q⟩
  · intro α q a
    exact ⟨hpush α q a, hpush α q a, hpush α q a⟩
  · intro α q
    unfold atomic_counter_spsc_queue.try_pop
    by_cases h : q.size = 0 ∨ q.closed = true
    · simp [h]
    · simp [h]
  · intro α q a
    unfold atomic_counter_spsc_queue.try_push
    by_cases h : q.capacity ≤ q.size ∨ q.closed = true
    · simp [h]
    · simp [h]

/-- C6: in every variant, a blocking push on a closed queue returns false
with the state unchanged, and whenever a completing blocking push returns
false the whole queue state (buffered contents included) is unchanged — no
partial push occurs. -/
theorem C6_push_closed_unchanged :
    (∀ (α : Type) (q : RingState α) (a : α),
      (q.closed = true → atomic_spin_spsc_queue.push q a = some (false, q)) ∧
      (∀ p, atomic_spin_spsc_queue.push q a = some p → p.1 = false → p.2 = q)) ∧
    (∀ (α : Type) (q : RingState α) (a : α),
      (q.closed = true → atomic_wait_spsc_queue.push q a = some (false, q)) ∧
      (∀ p, atomic_wait_spsc_queue.push q a = some p → p.1 = false → p.2 = q)) ∧
    (∀ (α : Type) (q : RingState α) (a : α),
      (q.closed = true → atomic_tail_head_spsc_queue.push q a = some (false, q)) ∧
      (∀ p, atomic_tail_head_spsc_queue.push q a = some p → p.1 = false → p.2 = q)) ∧
    (∀ (α : Type) (q : CounterState α) (a : α),
      (q.closed = true → atomic_counter_spsc_queue.push q a = some (false, q)) ∧
      (∀ p, atomic_counter_spsc_queue.push q a = some p → p.1 = false → p.2 = q)) ∧
    (∀ (α : Type) (s : SimpleState α) (a : α),
      (s.closed = true → simple_spsc_queue.push s a = some (false, s)) ∧
      (∀ p, simple_spsc_queue.push s a = some p → p.1 = false → p.2 = s)) := by
  have hring : ∀ (α : Type) (q : RingState α) (a : α),
      (q.closed = true → atomic_spin_spsc_queue.push q a = some (false, q)) ∧
      (∀ p, atomic_spin_spsc_queue.push q a = some p → p.1 = false → p.2 = q) := by
    intro α q a
    constructor
    · intro hcl
      unfold atomic_spin_spsc_queue.push
      rw [if_pos hcl]
    · intro p hp hfalse
      unfold atomic_spin_spsc_queue.push at hp
      by_cases h1 : q.closed = true
      · rw [if_pos h1] at hp
        simp only [Option.some.injEq] at hp
        rw [← hp]
      · rw [if_neg h1] at hp
        by_cases h2 : (q.tail + 1) % q.bufferSize = q.head
        · rw [if_pos h2] at hp
          exact absurd hp (by simp)
        · rw [if_neg h2] at hp
          simp only [Option.some.injEq] at hp
          rw [← hp] at hfalse
          exact absurd hfalse (by simp)
  have hwp : @atomic_wait_spsc_queue.push = @atomic_spin_spsc_queue.push := rfl
  have hthp : @atomic_tail_head_spsc_queue.push = @atomic_spin_spsc_queue.push := rfl
  refine ⟨hring, ?_, ?_, ?_, ?_⟩
  · intro α q a
    rw [hwp]
    exact hring α q a
  · intro α q a
    rw [hthp]
    exact hring α q a
  · intro α q a
    constructor
    · intro hcl
      unfold atomic_counter_spsc_queue.push
      rw [if_pos hcl]
    · intro p hp hfalse
      unfold atomic_counter_spsc_queue.push at hp
      by_cases h1 : q.closed = true
      · rw [if_pos h1] at hp
        simp only [Option.some.injEq] at hp
        rw [← hp]
      · rw [if_neg h1] at hp
        by_cases h2 : q.capacity ≤ q.size
        · rw [if_pos h2] at hp
          exact absurd hp (by simp)
        · rw [if_neg h2] at hp
          simp only [Option.some.injEq] at hp
          rw [← hp] at hfalse
          exact absurd hfalse (by simp)
  · intro α s a
    constructor
    · intro hcl
      unfold simple_spsc_queue.push simple_spsc_queue.locked_push
      rw [if_neg (by simp [hcl]), if_pos (Or.inr hcl)]
    · intro p hp hfalse
      unfold simple_spsc_queue.push simple_spsc_queue.locked_push at hp
      by_cases h1 : s.closed = false ∧ s.capacity ≤ s.q.length
      · rw [if_pos h1] at hp
        exact absurd hp (by simp)
      · rw [if_neg h1] at hp
        simp only [Option.some.injEq] at hp
        by_cases h2 : s.capacity ≤ s.q.length ∨ s.closed = true
        · rw [if_pos h2] at hp
          rw [← hp]
        · rw [if_neg h2] at hp
          rw [← hp] at hfalse
          exact absurd hfalse (by simp)

/-- C6 witness: a blocking push on a freshly closed spin-variant queue of
capacity 1 returns false and leaves the state unchanged. -/
theorem C6_push_closed_unchanged_witness :
    atomic_spin_spsc_queue.push
        (atomic_spin_spsc_queue.close (atomic_spin_spsc_queue.init Nat 1)) 42 =
      some (false, atomic_spin_spsc_queue.close (atomic_spin_spsc_queue.init Nat 1)) :=
  (C6_push_closed_unchanged.1 Nat
    (atomic_spin_spsc_queue.close (atomic_spin_spsc_queue.init Nat 1)) 42).1 rfl

/-- C7: for every variant, construction with capacity 0 fails with the
invalid-argument error, and construction with any nonzero capacity yields
the fresh open queue state with no other failure. -/
theorem C7_construction :
    (∀ (α : Type) [Inhabited α],
      atomic_spin_spsc_queue.construct α 0 = Except.error "capacity must be > 0" ∧
      ∀ c, c ≠ 0 →
        atomic_spin_spsc_queue.construct α c = Except.ok (atomic_spin_spsc_queue.init α c)) ∧
    (∀ (α : Type) [Inhabited α],
      atomic_wait_spsc_queue.construct α 0 = Except.error "capacity must be > 0" ∧
      ∀ c, c ≠ 0 →
        atomic_wait_spsc_queue.construct α c = Except.ok (atomic_wait_spsc_queue.init α c)) ∧
    (∀ (α : Type) [Inhabited α],
      atomic_tail_head_spsc_queue.construct α 0 = Except.error "capacity must be > 0" ∧
      ∀ c, c ≠ 0 →
        atomic_tail_head_spsc_queue.construct α c =
          Except.ok (atomic_tail_head_spsc_queue.init α c)) ∧
    (∀ (α : Type) [Inhabited α],
      atomic_counter_spsc_queue.construct α 0 = Except.error "capacity must be > 0" ∧
      ∀ c, c ≠ 0 →
        atomic_counter_spsc_queue.construct α c =
          Except.ok (atomic_counter_spsc_queue.init α c)) ∧
    (∀ (α : Type),
      simple_spsc_queue.construct α 0 = Except.error "capacity must be > 0" ∧
      ∀ c, c ≠ 0 →
        simple_spsc_queue.construct α c = Except.ok (simple_spsc_queue.init α c)) := by
  refine ⟨?_, ?_, ?_, ?_, ?_⟩
  · intro α inst
    exact ⟨rfl, fun c hc => by unfold atomic_spin_spsc_queue.construct; rw [if_neg hc]⟩
  · intro α inst
    exact ⟨rfl, fun c hc => by unfold atomic_wait_spsc_queue.construct; rw [if_neg hc]⟩
  · intro α inst
    exact ⟨rfl, fun c hc => by unfold atomic_tail_head_spsc_queue.construct; rw [if_neg hc]⟩
  · intro α inst
    exact ⟨rfl, fun c hc => by unfold atomic_counter_spsc_queue.construct; rw [if_neg hc]⟩
  · intro α
    exact ⟨rfl, fun c hc => by unfold simple_spsc_queue.construct; rw [if_neg hc]⟩

/-- C7 witness: spin-variant construction at capacity 3 succeeds. -/
theorem C7_construction_witness :
    atomic_spin_spsc_queue.construct Nat 3 =
      Except.ok (atomic_spin_spsc_queue.init Nat 3) :=
  (C7_construction.1 Nat).2 3 (by decide)

/-- C8: every variant exposes a pure `capacity()` accessor returning the
construction capacity, but no variant declares a `closed()` or `done()`
member at all (the repository's own tests call both), so the claimed
closed-state accessor does not exist in any variant. -/
theorem C8_accessors :
    ("capacity" ∈ atomic_spin_spsc_queue.members ∧
      "closed" ∉ atomic_spin_spsc_queue.members ∧
      "done" ∉ atomic_spin_spsc_queue.members) ∧
    ("capacity" ∈ atomic_wait_spsc_queue.members ∧
      "closed" ∉ atomic_wait_spsc_queue.members ∧
      "done" ∉ atomic_wait_spsc_queue.members) ∧
    ("capacity" ∈ atomic_tail_head_spsc_queue.members ∧
      "closed" ∉ atomic_tail_head_spsc_queue.members ∧
      "done" ∉ atomic_tail_head_spsc_queue.members) ∧
    ("capacity" ∈ atomic_counter_spsc_queue.members ∧
      "closed" ∉ atomic_counter_spsc_queue.members ∧
      "done" ∉ atomic_counter_spsc_queue.members) ∧
    ("capacity" ∈ simple_spsc_queue.members ∧
      "closed" ∉ simple_spsc_queue.members ∧
      "done" ∉ simple_spsc_queue.members) ∧
    (∀ (α : Type) [Inhabited α] (c : Nat),
      (atomic_spin_spsc_queue.init α c).capacity = c ∧
      (atomic_wait_spsc_queue.init α c).capacity = c ∧
      (atomic_tail_head_spsc_queue.init α c).capacity = c ∧
      (atomic_counter_spsc_queue.init α c).capacity = c) ∧
    (∀ (α : Type) (c : Nat), (simple_spsc_queue.init α c).capacity = c) := by
  refine ⟨by decide, by decide, by decide, by decide, by decide, ?_, ?_⟩
  · intro α inst c
    exact ⟨rfl, rfl, rfl, rfl⟩
  · intro α c
    rfl

/-- C9: the counter-wait and tail-head constructors only `reserve` their
vectors, constructing zero elements, yet the first successful `try_push`
on a fresh capacity-1 queue writes the slot `buffer_[0]` — an index not
below the number of constructed elements (undefined behavior in the C++
source); the spin and wait-notify variants construct all
`capacity + 1` elements. -/
theorem C9_reserve_out_of_bounds :
    atomic_counter_spsc_queue.constructedSlots 1 = 0 ∧
    (atomic_counter_spsc_queue.try_push (atomic_counter_spsc_queue.init Nat 1) 5).1 = true ∧
    ¬ ((atomic_counter_spsc_queue.init Nat 1).tail <
        atomic_counter_spsc_queue.constructedSlots 1) ∧
    atomic_tail_head_spsc_queue.constructedSlots 1 = 0 ∧
    (atomic_tail_head_spsc_queue.try_push
      (atomic_tail_head_spsc_queue.init Nat 1) 5).1 = true ∧
    ¬ ((atomic_tail_head_spsc_queue.init Nat 1).tail <
        atomic_tail_head_spsc_queue.constructedSlots 1) ∧
    atomic_spin_spsc_queue.constructedSlots 1 = 2 ∧
    atomic_wait_spsc_queue.constructedSlots 1 = 2 :=
  ⟨rfl, rfl, by decide, rfl, rfl, by decide, rfl, rfl⟩

/-- C10: in the busy-spin, wait-notify and lock-based variants, the result
and state effect of `try_pop` are independent of the `closed_` flag: with
any value of the flag and all other state equal, `try_pop` returns the same
value and produces the same buffer, head and tail (deque, for the
lock-based variant). -/
theorem C10_try_pop_ignores_closed :
    (∀ (α : Type) (q : RingState α) (b : Bool),
      (atomic_spin_spsc_queue.try_pop { q with closed := b }).1 =
        (atomic_spin_spsc_queue.try_pop q).1 ∧
      (atomic_spin_spsc_queue.try_pop { q with closed := b }).2.buffer =
        (atomic_spin_spsc_queue.try_pop q).2.buffer ∧
      (atomic_spin_spsc_queue.try_pop { q with closed := b }).2.head =
        (atomic_spin_spsc_queue.try_pop q).2.head ∧
      (atomic_spin_spsc_queue.try_pop { q with closed := b }).2.tail =
        (atomic_spin_spsc_queue.try_pop q).2.tail) ∧
    (∀ (α : Type) (q : RingState α) (b : Bool),
      (atomic_wait_spsc_queue.try_pop { q with closed := b }).1 =
        (atomic_wait_spsc_queue.try_pop q).1 ∧
      (atomic_wait_spsc_queue.try_pop { q with closed := b }).2.buffer =
        (atomic_wait_spsc_queue.try_pop q).2.buffer ∧
      (atomic_wait_spsc_queue.try_pop { q with closed := b }).2.head =
        (atomic_wait_spsc_queue.try_pop q).2.head ∧
      (atomic_wait_spsc_queue.try_pop { q with closed := b }).2.tail =
        (atomic_wait_spsc_queue.try_pop q).2.tail) ∧
    (∀ (α : Type) (s : SimpleState α) (b : Bool),
      (simple_spsc_queue.try_pop { s with closed := b }).1 =
        (simple_spsc_queue.try_pop s).1 ∧
      (simple_spsc_queue.try_pop { s with closed := b }).2.q =
        (simple_spsc_queue.try_pop s).2.q) := by
  have hring : ∀ (α : Type) (q : RingState α) (b : Bool),
      (atomic_spin_spsc_queue.try_pop { q with closed := b }).1 =
        (atomic_spin_spsc_queue.try_pop q).1 ∧
      (atomic_spin_spsc_queue.try_pop { q with closed := b }).2.buffer =
        (atomic_spin_spsc_queue.try_pop q).2.buffer ∧
      (atomic_spin_spsc_queue.try_pop { q with closed := b }).2.head =
        (atomic_spin_spsc_queue.try_pop q).2.head ∧
      (atomic_spin_spsc_queue.try_pop { q with closed := b }).2.tail =
        (atomic_spin_spsc_queue.try_pop q).2.tail := by
    intro α q b
    unfold atomic_spin_spsc_queue.try_pop
    by_cases h : q.head = q.tail
    · simp [h]
    · simp [h, RingState.bufferSize]
  have hwp : @atomic_wait_spsc_queue.try_pop = @atomic_spin_spsc_queue.try_pop := rfl
  refine ⟨hring, ?_, ?_⟩
  · intro α q b
    rw [hwp]
    exact hring α q b
  · intro α s b
    unfold simple_spsc_queue.try_pop simple_spsc_queue.locked_pop
    cases hqq : s.q with
    | nil => simp [hqq]
    | cons x rest => simp [hqq]
